import Mathlib

/-!
Verification development for the `authzee` authorization engine.

The definitions below are a shallow embedding of the Python sources:
`authzee/storage/in_process_storage.py` (grant storage, pagination,
latches), `authzee/compute/in_process_compute.py` (the deny/allow scan
driving `authorize`), `authzee/authzee_async.py` (locality gating) and
`authzee/module_locality.py`.  The grant-matching kernel (`authzee.core`)
is not part of the source tree; the definitions embedding it are modelled
from the specification and are marked as such in their doc comments.

Python dicts keyed by UUID objects are embedded as association lists keyed
by the UUID's string form (`str(uuid4())`); Python's `str`/`int` round
trip for page references is embedded by an explicit decimal
printer/parser pair; Python list slicing is embedded by `pySlice` with
Python's negative-index normalisation.
-/

deriving instance DecidableEq for Except

namespace Authzee

/-- Grant effect: the `effect` field of a grant, `"allow"` or `"deny"`. -/
inductive Effect where
  | allow
  | deny
deriving DecidableEq, Repr

/-- The `query_validation` policy tag (`"none" | "validate" | "error"`). -/
inductive QueryValidation where
  | noneTag
  | validateTag
  | errorTag
deriving DecidableEq, Repr

/-- The `context_validation` policy tag (`"none" | "grant" | "error"`). -/
inductive CtxValidation where
  | noneTag
  | grantTag
  | errorTag
deriving DecidableEq, Repr

/-- Result value of the JMESPath `search` function: a boolean, or any
non-boolean JSON value (collapsed to one constructor: the kernel only
compares the result structurally against the grant's boolean `equality`
flag, so all non-boolean values behave alike). -/
inductive Val where
  | b (x : Bool)
  | nonBool
deriving DecidableEq, Repr

/-- A grant record.  Opaque JSON payloads (`data`, `context_schema`) are
embedded as `Nat` identifiers: the engine never inspects them, it only
passes `context_schema` to the context validator. -/
structure Grant where
  grant_uuid : String
  name : String
  description : String
  effect : Effect
  actions : List String
  query : String
  query_validation : QueryValidation
  equality : Bool
  data : Nat
  context_schema : Nat
  context_validation : CtxValidation
deriving DecidableEq, Repr

/-- An authorization request (the fields the evaluation engine reads:
the action, and the payload consumed as black-box data by `search` / the context
validator). -/
structure Req where
  action : String
  context : Nat
  payload : Nat
deriving DecidableEq, Repr

/-- Python exceptions surfaced by the embedded code paths. -/
inductive PyErr where
  | keyError
  | attributeError
  | grantNotFound
  | latchNotFound
  | pageReference
  | localityIncompatibility
deriving DecidableEq, Repr

/-! ### Association lists (Python `dict`)

Python dicts preserve insertion order; they are embedded as association
lists.  `alookup` finds the value at a key, `aset` replaces the value at
an existing key in place, `dinsert` models `d[k] = v` (replace if the key
exists, else append). -/

def alookup {β : Type} (m : List (String × β)) (k : String) : Option β :=
  match m with
  | [] => none
  | p :: rest => if p.1 = k then some p.2 else alookup rest k

def aset {β : Type} (m : List (String × β)) (k : String) (v : β) :
    List (String × β) :=
  match m with
  | [] => []
  | p :: rest => if p.1 = k then (k, v) :: rest else p :: aset rest k v

def dinsert {β : Type} (m : List (String × β)) (k : String) (v : β) :
    List (String × β) :=
  match m with
  | [] => [(k, v)]
  | p :: rest => if p.1 = k then (k, v) :: rest else p :: dinsert rest k v

/-- Embeds `del d[k]` / `d.pop(k)`: remove the entry at a key. -/
def adel {β : Type} (m : List (String × β)) (k : String) :
    List (String × β) :=
  match m with
  | [] => []
  | p :: rest => if p.1 = k then rest else p :: adel rest k

/-! ### Decimal strings (Python `str(int)` and `int(str)`)

The in-process storage serialises page cursors with `str(index)` and
parses them back with `int(page_ref)`, catching `ValueError`.  The pair
below embeds that: `pyStrNat`/`pyStrInt` print decimals, `pyIntParse`
accepts an optional leading `'-'` followed by one or more ASCII digits
and returns `none` where Python's `int()` would raise `ValueError`. -/

def natToDigitsAux : Nat → Nat → List Nat
  | 0, _ => []
  | fuel + 1, n => if n < 10 then [n] else natToDigitsAux fuel (n / 10) ++ [n % 10]

def natToDigits (n : Nat) : List Nat := natToDigitsAux (n + 1) n

def digitsToNat (ds : List Nat) : Nat := ds.foldl (fun a d => a * 10 + d) 0

def pyStrNat (n : Nat) : String := ⟨(natToDigits n).map Nat.digitChar⟩

def pyStrInt (i : Int) : String :=
  if i < 0 then "-" ++ pyStrNat (-i).toNat else pyStrNat i.toNat

def charDigitVal (c : Char) : Nat := c.toNat - 48

def pyDigitsParse (l : List Char) : Option Nat :=
  if l ≠ [] ∧ l.all Char.isDigit then some (digitsToNat (l.map charDigitVal))
  else none

def pyIntParse (s : String) : Option Int :=
  match s.data with
  | [] => none
  | c :: rest =>
    if c = '-' then (pyDigitsParse rest).map (fun n => -(n : Int))
    else (pyDigitsParse s.data).map (fun n => (n : Int))

theorem natToDigitsAux_correct (fuel : Nat) :
    ∀ n, n < fuel → digitsToNat (natToDigitsAux fuel n) = n := by
  induction fuel with
  | zero => intro n h; omega
  | succ f ih =>
    intro n h
    by_cases h10 : n < 10
    · simp [natToDigitsAux, h10, digitsToNat]
    · have hdiv : n / 10 < f := by omega
      simp only [natToDigitsAux, if_neg h10]
      have := ih (n / 10) hdiv
      simp only [digitsToNat] at this ⊢
      rw [List.foldl_append, this]
      simp
      omega

theorem digitsToNat_natToDigits (n : Nat) : digitsToNat (natToDigits n) = n :=
  natToDigitsAux_correct (n + 1) n (Nat.lt_succ_self n)

theorem natToDigitsAux_lt_ten (fuel : Nat) :
    ∀ n d, d ∈ natToDigitsAux fuel n → d < 10 := by
  induction fuel with
  | zero => intro n d h; simp [natToDigitsAux] at h
  | succ f ih =>
    intro n d h
    by_cases h10 : n < 10
    · simp [natToDigitsAux, h10] at h; omega
    · simp only [natToDigitsAux, if_neg h10, List.mem_append, List.mem_singleton] at h
      rcases h with h | h
      · exact ih _ _ h
      · omega

theorem natToDigitsAux_ne_nil (fuel n : Nat) (h : 0 < fuel) :
    natToDigitsAux fuel n ≠ [] := by
  cases fuel with
  | zero => omega
  | succ f =>
    by_cases h10 : n < 10 <;> simp [natToDigitsAux, h10]

theorem digitChar_isDigit (d : Nat) (h : d < 10) : (Nat.digitChar d).isDigit := by
  interval_cases d <;> decide

theorem charDigitVal_digitChar (d : Nat) (h : d < 10) :
    charDigitVal (Nat.digitChar d) = d := by
  interval_cases d <;> decide

theorem digitChar_ne_dash (d : Nat) (h : d < 10) : Nat.digitChar d ≠ '-' := by
  interval_cases d <;> decide

theorem pyIntParse_pyStrNat (n : Nat) : pyIntParse (pyStrNat n) = some (n : Int) := by
  have hne : natToDigits n ≠ [] := natToDigitsAux_ne_nil (n + 1) n (Nat.succ_pos n)
  have hlt : ∀ d ∈ natToDigits n, d < 10 := fun d hd => natToDigitsAux_lt_ten _ _ _ hd
  have hdata : (pyStrNat n).data = (natToDigits n).map Nat.digitChar := rfl
  rcases hd : natToDigits n with _ | ⟨d0, rest⟩
  · exact absurd hd hne
  · have hd0 : d0 < 10 := hlt d0 (by rw [hd]; exact List.mem_cons_self _ _)
    have hparse : pyDigitsParse ((natToDigits n).map Nat.digitChar) =
        some (digitsToNat (natToDigits n)) := by
      have hall : ((natToDigits n).map Nat.digitChar).all Char.isDigit := by
        rw [List.all_eq_true]
        intro c hc
        rcases List.mem_map.mp hc with ⟨d, hdm, rfl⟩
        exact digitChar_isDigit d (hlt d hdm)
      have hne' : (natToDigits n).map Nat.digitChar ≠ [] := by
        simp [hd]
      rw [pyDigitsParse, if_pos ⟨hne', hall⟩]
      congr 1
      rw [List.map_map]
      have : ∀ d ∈ natToDigits n, (charDigitVal ∘ Nat.digitChar) d = id d := by
        intro d hdm
        simp [Function.comp, charDigitVal_digitChar d (hlt d hdm)]
      rw [List.map_congr_left this, List.map_id]
    rw [pyIntParse]
    rw [hdata, hd]
    simp only [List.map_cons]
    rw [if_neg (digitChar_ne_dash d0 hd0)]
    have : Nat.digitChar d0 :: List.map Nat.digitChar rest =
        (natToDigits n).map Nat.digitChar := by rw [hd]; rfl
    rw [this, hparse, digitsToNat_natToDigits]
    rfl

/-! ### Python list slicing -/

/-- Normalise a Python slice bound: negative indices count from the end
(clamped at 0), positive indices are clamped at the length. -/
def pyIdx (len : Nat) (i : Int) : Nat :=
  if i < 0 then ((len : Int) + i).toNat else min i.toNat len

/-- Python's `l[a:b]` (step 1). -/
def pySlice {α : Type} (l : List α) (a b : Int) : List α :=
  (l.take (pyIdx l.length b)).drop (pyIdx l.length a)

theorem pyIdx_ofNat (len i : Nat) : pyIdx len (i : Int) = min i len := by
  simp [pyIdx]

theorem pySlice_ofNat {α : Type} (l : List α) (i n : Nat) :
    pySlice l (i : Int) ((i : Int) + (n : Int)) = (l.drop i).take n := by
  have hb : ((i : Int) + (n : Int)) = ((i + n : Nat) : Int) := by push_cast; ring
  rw [pySlice, hb, pyIdx_ofNat, pyIdx_ofNat]
  have htake : l.take (min (i + n) l.length) = l.take (i + n) := by
    rcases Nat.le_total (i + n) l.length with h | h
    · rw [min_eq_left h]
    · rw [min_eq_right h, List.take_length, List.take_of_length_le h]
  rw [htake]
  rcases Nat.lt_or_ge i l.length with h | h
  · rw [min_eq_left (Nat.le_of_lt h), List.drop_take]
    congr 1
    omega
  · rw [min_eq_right h]
    have h1 : (l.take (i + n)).length ≤ l.length := by
      rw [List.length_take]; omega
    have h2 : l.drop i = [] := List.drop_eq_nil_of_le h
    rw [List.drop_eq_nil_of_le (by rw [List.length_take]; omega), h2]
    simp

/-! ### In-process storage state

`InProcessStorage` keeps four denormalized indexes (`in_process_storage.py`
lines 26-91): a UUID-keyed lookup table, an effect index (fixed keys
`"allow"`/`"deny"`, embedded as two fields), an action index keyed by the
declared actions plus the `None` key for wildcard grants, and an
(effect, action) index.  The `None` dict keys are embedded as separate
fields. -/

structure GrantsPage where
  grants : List Grant
  next_page_ref : Option String
deriving DecidableEq, Repr

structure RefsPage where
  page_refs : List String
  next_page_ref : Option String
deriving DecidableEq, Repr

structure St where
  declaredActions : List String
  lut : List (String × Grant)
  allowList : List Grant
  denyList : List Grant
  actionBuckets : List (String × List Grant)
  actionNone : List Grant
  bothAllow : List (String × List Grant)
  bothAllowNone : List Grant
  bothDeny : List (String × List Grant)
  bothDenyNone : List Grant
deriving DecidableEq, Repr

def St.lutValues (s : St) : List Grant := s.lut.map Prod.snd

def effectList (s : St) (e : Effect) : List Grant :=
  match e with
  | .allow => s.allowList
  | .deny => s.denyList

def setEffectList (s : St) (e : Effect) (l : List Grant) : St :=
  match e with
  | .allow => { s with allowList := l }
  | .deny => { s with denyList := l }

def bothMap (s : St) (e : Effect) : List (String × List Grant) :=
  match e with
  | .allow => s.bothAllow
  | .deny => s.bothDeny

def setBothMap (s : St) (e : Effect) (m : List (String × List Grant)) : St :=
  match e with
  | .allow => { s with bothAllow := m }
  | .deny => { s with bothDeny := m }

def bothNone (s : St) (e : Effect) : List Grant :=
  match e with
  | .allow => s.bothAllowNone
  | .deny => s.bothDenyNone

def setBothNone (s : St) (e : Effect) (l : List Grant) : St :=
  match e with
  | .allow => { s with bothAllowNone := l }
  | .deny => { s with bothDenyNone := l }

/-- Embeds `d[k]` on a dict: `KeyError` when the key is absent. -/
def lookKey {β : Type} (m : List (String × β)) (k : String) : Except PyErr β :=
  match alookup m k with
  | none => .error .keyError
  | some v => .ok v

/-- The grant list selected by the filters — the branching of
`get_grants_page` / `get_grant_page_refs_page`
(`in_process_storage.py` lines 210-217 and 270-279): the specific-action
bucket is concatenated with the all-actions (`None`-key) bucket. -/
def selectGrants (s : St) (effect : Option Effect) (action : Option String) :
    Except PyErr (List Grant) :=
  match effect, action with
  | some e, some a =>
    match lookKey (bothMap s e) a with
    | .error er => .error er
    | .ok xs => .ok (xs ++ bothNone s e)
  | some e, none => .ok (effectList s e)
  | none, some a =>
    match lookKey s.actionBuckets a with
    | .error er => .error er
    | .ok xs => .ok (xs ++ s.actionNone)
  | none, none => .ok s.lutValues

/-- The `start_index` computation shared by `get_grants_page` and
`get_grant_page_refs_page` (lines 220-225 and 289-295): `0` for a `None`
cursor, otherwise `int(page_ref)` with `ValueError` caught and mapped
back to `0`. -/
def page_start (page_ref : Option String) : Int :=
  match page_ref with
  | none => 0
  | some r => (pyIntParse r).getD 0

/-- Pagination arithmetic of `get_grants_page`
(`in_process_storage.py` lines 219-238), on an already-selected grant
list: slice `grants[start:start+page_size]`, and issue `str(end_index)`
as the next cursor when the end is strictly inside the list. -/
def get_grants_page_list (grants : List Grant) (page_ref : Option String)
    (grants_page_size : Nat) : GrantsPage :=
  { grants := pySlice grants (page_start page_ref) (page_start page_ref + grants_page_size),
    next_page_ref :=
      if page_start page_ref + grants_page_size < (grants.length : Int)
      then some (pyStrInt (page_start page_ref + grants_page_size)) else none }

/-- Embeds `InProcessStorage.get_grants_page` (lines 185-238). -/
def get_grants_page (s : St) (effect : Option Effect) (action : Option String)
    (page_ref : Option String) (grants_page_size : Nat) :
    Except PyErr GrantsPage :=
  match selectGrants s effect action with
  | .error e => .error e
  | .ok grants => .ok (get_grants_page_list grants page_ref grants_page_size)

/-- Python's `range(0, total, step)` for `step ≥ 1` (for `step = 0` the
source would raise `ValueError`; the fuel keeps the embedding total, and
suffices whenever `step ≥ 1`). -/
def pyRangeAux (step : Nat) : Nat → Nat → Nat → List Nat
  | 0, _, _ => []
  | fuel + 1, i, total => if i < total then i :: pyRangeAux step fuel (i + step) total else []

def pyRange (total step : Nat) : List Nat := pyRangeAux step (total + 1) 0 total

/-- Pagination arithmetic of `get_grant_page_refs_page`
(`in_process_storage.py` lines 281-308): one cursor per
`grants_page_size` offset over the selected list, the cursor page itself
sliced by `refs_page_size`, with the next cursor indexing into the list
of cursors. -/
def all_page_refs (grants : List Grant) (grants_page_size : Nat) : List String :=
  (pyRange grants.length grants_page_size).map pyStrNat

def get_page_refs_list (grants : List Grant) (page_ref : Option String)
    (grants_page_size refs_page_size : Nat) : RefsPage :=
  { page_refs := pySlice (all_page_refs grants grants_page_size)
      (page_start page_ref) (page_start page_ref + refs_page_size),
    next_page_ref :=
      if page_start page_ref + refs_page_size <
          ((all_page_refs grants grants_page_size).length : Int)
      then some (pyStrInt (page_start page_ref + refs_page_size)) else none }

/-- Embeds `InProcessStorage.get_grant_page_refs_page` (lines 241-308). -/
def get_grant_page_refs_page (s : St) (effect : Option Effect)
    (action : Option String) (page_ref : Option String)
    (grants_page_size refs_page_size : Nat) : Except PyErr RefsPage :=
  match selectGrants s effect action with
  | .error e => .error e
  | .ok grants => .ok (get_page_refs_list grants page_ref grants_page_size refs_page_size)

/-- Append a grant to the bucket at a key (`d[k].append(g)`):
`KeyError` when the key is absent. -/
def appendAtKey (m : List (String × List Grant)) (k : String) (g : Grant) :
    Except PyErr (List (String × List Grant)) :=
  match alookup m k with
  | none => .error .keyError
  | some xs => .ok (aset m k (xs ++ [g]))

/-- The per-action index updates of `enact`
(`in_process_storage.py` lines 124-126). -/
def enactActions (g : Grant) : St → List String → Except PyErr St
  | s, [] => .ok s
  | s, a :: rest =>
    match appendAtKey s.actionBuckets a g with
    | .error e => .error e
    | .ok ab =>
      match appendAtKey (bothMap s g.effect) a g with
      | .error e => .error e
      | .ok bb => enactActions g (setBothMap { s with actionBuckets := ab } g.effect bb) rest

/-- Embeds `InProcessStorage.enact` (lines 102-128).  The freshly generated
`str(uuid4())` is passed in as `fresh`; the stored grant is the deep copy
of the input with `grant_uuid` overwritten, and a further deep copy is
returned. -/
def enact (s : St) (new_grant : Grant) (fresh : String) :
    Except PyErr (St × Grant) :=
  let g := { new_grant with grant_uuid := fresh }
  let s1 := { s with lut := dinsert s.lut fresh g }
  let s2 := setEffectList s1 g.effect (effectList s1 g.effect ++ [g])
  if g.actions = [] then
    let s3 := { s2 with actionNone := s2.actionNone ++ [g] }
    let s4 := setBothNone s3 g.effect (bothNone s3 g.effect ++ [g])
    .ok (s4, g)
  else
    match enactActions g s2 g.actions with
    | .error e => .error e
    | .ok s3 => .ok (s3, g)

/-- The repeal list comprehension
`[g for g in bucket if g['grant_uuid'] != uuid_str]`. -/
def bucket_repeal (u : String) (xs : List Grant) : List Grant :=
  xs.filter (fun x => x.grant_uuid ≠ u)

/-- Drop a uuid from the bucket at a key
(`d[k] = [g for g in d[k] if g['grant_uuid'] != uuid_str]`). -/
def filterAtKey (m : List (String × List Grant)) (k : String) (u : String) :
    Except PyErr (List (String × List Grant)) :=
  match alookup m k with
  | none => .error .keyError
  | some xs => .ok (aset m k (bucket_repeal u xs))

/-- The per-action index updates of `repeal`
(`in_process_storage.py` lines 154-156). -/
def repealActions (uuidStr : String) (e : Effect) : St → List String → Except PyErr St
  | s, [] => .ok s
  | s, a :: rest =>
    match filterAtKey s.actionBuckets a uuidStr with
    | .error er => .error er
    | .ok ab =>
      match filterAtKey (bothMap s e) a uuidStr with
      | .error er => .error er
      | .ok bb => repealActions uuidStr e (setBothMap { s with actionBuckets := ab } e bb) rest

/-- Embeds `InProcessStorage.repeal` (lines 131-156): `GrantNotFoundError` when
the uuid is absent, otherwise the grant is popped from the lookup table
and filtered (by uuid string) out of every index it was recorded under. -/
def repeal (s : St) (grant_uuid : String) : Except PyErr St :=
  match alookup s.lut grant_uuid with
  | none => .error .grantNotFound
  | some g =>
    let s1 := { s with lut := adel s.lut grant_uuid }
    let uuidStr := g.grant_uuid
    let s2 := setEffectList s1 g.effect
      (bucket_repeal uuidStr (effectList s1 g.effect))
    if g.actions = [] then
      let s3 := { s2 with actionNone := bucket_repeal uuidStr s2.actionNone }
      .ok (setBothNone s3 g.effect (bucket_repeal uuidStr (bothNone s3 g.effect)))
    else
      repealActions uuidStr g.effect s2 g.actions

/-- Embeds `InProcessStorage.get_grant` (lines 159-182): a deep copy of the
stored grant, `GrantNotFoundError` when absent. -/
def get_grant (s : St) (grant_uuid : String) : Except PyErr Grant :=
  match alookup s.lut grant_uuid with
  | none => .error .grantNotFound
  | some g => .ok g

/-! ### Latches (`in_process_storage.py` lines 311-394) -/

structure Latch where
  storage_latch_uuid : String
  set : Bool
  created_at : Nat
deriving DecidableEq, Repr

abbrev LatchSt := List (String × Latch)

/-- Embeds `create_latch`: the fresh `uuid4()` and the current timestamp are
passed in; the new latch is stored unset and a deep copy is returned. -/
def create_latch (m : LatchSt) (fresh : String) (now : Nat) : LatchSt × Latch :=
  let new_latch : Latch := { storage_latch_uuid := fresh, set := false, created_at := now }
  (dinsert m fresh new_latch, new_latch)

/-- Embeds `get_latch`: a deep copy of the stored latch, `LatchNotFoundError` when absent. -/
def get_latch (m : LatchSt) (u : String) : Except PyErr Latch :=
  match alookup m u with
  | none => .error .latchNotFound
  | some l => .ok l

/-- Embeds `set_latch`: sets the stored latch's `set` field to `True` and
returns a deep copy; `LatchNotFoundError` when absent. -/
def set_latch (m : LatchSt) (u : String) : Except PyErr (LatchSt × Latch) :=
  match alookup m u with
  | none => .error .latchNotFound
  | some l =>
    let l' := { l with set := true }
    .ok (aset m u l', l')

/-- Embeds `delete_latch`: removes the latch, `LatchNotFoundError` when absent. -/
def delete_latch (m : LatchSt) (u : String) : Except PyErr LatchSt :=
  match alookup m u with
  | none => .error .latchNotFound
  | some _ => .ok (adel m u)

/-! ### Grant-matching kernel and decision algorithm

The `authzee.core` module is not in the source tree (only its callers
are); the kernel below is modelled from the specification (§4.3, §4.4,
§6, §7). -/

structure ErrEntry where
  grant_uuid : String
  critical : Bool
deriving DecidableEq, Repr

/-- The five-bucket `errors` object of responses. -/
structure ErrBuckets where
  context : List ErrEntry
  definition : List ErrEntry
  grant : List ErrEntry
  jmespath : List ErrEntry
  request : List ErrEntry
deriving DecidableEq, Repr

def emptyErrs : ErrBuckets := ⟨[], [], [], [], []⟩

def addErrs (acc : ErrBuckets) (ce je : List ErrEntry) : ErrBuckets :=
  { acc with context := acc.context ++ ce, jmespath := acc.jmespath ++ je }

/-- The decision response of `authorize` (§6; `message` is omitted — no
claim mentions it). -/
structure AuthzResp where
  authorized : Bool
  completed : Bool
  grant : Option Grant
  errors : ErrBuckets
deriving DecidableEq, Repr

/-- Outcome of evaluating one grant against one request. -/
inductive MatchOut where
  | noMatch (ctxErrs jmesErrs : List ErrEntry)
  | matched
  | criticalCtx (e : ErrEntry)
  | criticalJmes (e : ErrEntry)
deriving DecidableEq, Repr

/-- The JMESPath search function: `none` embeds a raised exception. -/
def SearchFn : Type := String → Req → Grant → Option Val

/-- The JSON-Schema context validator (an external collaborator):
`context_schema` id → context id → valid. -/
def CtxFn : Type := Nat → Nat → Bool

/-- Modelled from the spec: step 3 of the grant-matching kernel (§4.3).
`v = search(grant.query, {request, grant})`; a raise is critical iff
`query_validation == "error"`, otherwise a non-critical jmespath error
and no-match; the grant is applicable iff `v == grant.equality`
comparing booleans structurally. -/
def query_step (search : SearchFn) (req : Req) (g : Grant) : MatchOut :=
  match search g.query req g with
  | none =>
    if g.query_validation = .errorTag then .criticalJmes ⟨g.grant_uuid, true⟩
    else .noMatch [] [⟨g.grant_uuid, false⟩]
  | some v => if v = Val.b g.equality then .matched else .noMatch [] []

/-- Modelled from the spec: the grant-matching kernel (§4.3, absent
`authzee.core`).  Step 1: a grant with non-empty `actions` not containing
the request action is not applicable.  Step 2: context validation failure
is ignored under `"none"`, a non-critical context error and no-match
under `"grant"`, critical under `"error"`.  Step 3: `query_step`. -/
def match_grant (search : SearchFn) (ctxOk : CtxFn) (req : Req) (g : Grant) :
    MatchOut :=
  if g.actions ≠ [] ∧ req.action ∉ g.actions then .noMatch [] []
  else if ctxOk g.context_schema req.context then query_step search req g
  else
    match g.context_validation with
    | .noneTag => query_step search req g
    | .grantTag => .noMatch [⟨g.grant_uuid, false⟩] []
    | .errorTag => .criticalCtx ⟨g.grant_uuid, true⟩

/-- Modelled from the spec: `core.authorize` on one page of grants (§4.4,
§7, absent `authzee.core`): grants are evaluated in order; non-critical
errors accumulate; the first applicable grant decides (`authorized` iff
its effect is allow); a critical error aborts with `completed = false`;
an exhausted page is an undecided response. -/
def core_authorize_go (search : SearchFn) (ctxOk : CtxFn) (req : Req) :
    List Grant → ErrBuckets → AuthzResp
  | [], acc => ⟨false, true, none, acc⟩
  | g :: rest, acc =>
    match match_grant search ctxOk req g with
    | .matched => ⟨decide (g.effect = Effect.allow), true, some g, acc⟩
    | .noMatch ce je => core_authorize_go search ctxOk req rest (addErrs acc ce je)
    | .criticalCtx e => ⟨false, false, none, addErrs acc [e] []⟩
    | .criticalJmes e => ⟨false, false, none, addErrs acc [] [e]⟩

/-- Modelled from the spec: `core.authorize` (absent `authzee.core`). -/
def core_authorize (search : SearchFn) (ctxOk : CtxFn) (req : Req)
    (grants : List Grant) : AuthzResp :=
  core_authorize_go search ctxOk req grants emptyErrs

/-! ### In-process compute (`in_process_compute.py`) -/

/-- Embeds `InProcessCompute._get_page_or_pages` (lines 166-202), on the
selected grant list (the state is unchanged for the duration of a scan,
so the storage reads it performs all select the same list): under
parallel paging, fetch a page of cursors, fetch each cursor's grant page,
and concatenate in cursor order, inheriting the cursor page's
`next_page_ref`. -/
def get_page_or_pages_list (grants : List Grant) (page_ref : Option String)
    (grants_page_size : Nat) (parallel_paging : Bool) (refs_page_size : Nat) :
    GrantsPage :=
  if parallel_paging then
    let refs := get_page_refs_list grants page_ref grants_page_size refs_page_size
    { grants := (refs.page_refs.map
        (fun r => (get_grants_page_list grants (some r) grants_page_size).grants)).flatten,
      next_page_ref := refs.next_page_ref }
  else get_grants_page_list grants page_ref grants_page_size

/-- Embeds `InProcessCompute._page_gen` (lines 205-229): start from cursor
`None` and follow `next_page_ref` until it is `None`, yielding each
slab of grants.  Fuel-based; `length + 1` steps suffice whenever the
page sizes are at least 1 (the source loops forever on page size 0). -/
def page_gen_aux (grants : List Grant) (grants_page_size : Nat)
    (parallel_paging : Bool) (refs_page_size : Nat) :
    Nat → Option String → List (List Grant)
  | 0, _ => []
  | fuel + 1, ref =>
    let p := get_page_or_pages_list grants ref grants_page_size parallel_paging refs_page_size
    p.grants ::
      (match p.next_page_ref with
       | none => []
       | some r => page_gen_aux grants grants_page_size parallel_paging refs_page_size fuel (some r))

def page_gen (grants : List Grant) (grants_page_size : Nat)
    (parallel_paging : Bool) (refs_page_size : Nat) : List (List Grant) :=
  page_gen_aux grants grants_page_size parallel_paging refs_page_size
    (grants.length + 1) none

/-- The deny-loop early-return test of `InProcessCompute.authorize`
(line 145): `resp['completed'] is False or resp['grant'] is not None`. -/
def denyCond (r : AuthzResp) : Bool := (!r.completed) || r.grant.isSome

/-- The allow-loop early-return test of `InProcessCompute.authorize`
(line 160): `resp['completed'] is False and resp['grant'] is not None`. -/
def allowCond (r : AuthzResp) : Bool := (!r.completed) && r.grant.isSome

/-- One `async for` loop of `InProcessCompute.authorize`: evaluate each
slab in turn; the first response passing `cond` is returned (first
component); the second component tracks the last computed response (the
`resp` variable after the loop). -/
def scan_pages (f : List Grant → AuthzResp) (cond : AuthzResp → Bool) :
    List (List Grant) → Option AuthzResp × Option AuthzResp
  | [] => (none, none)
  | sl :: rest =>
    let r := f sl
    if cond r then (some r, some r)
    else
      let p := scan_pages f cond rest
      (p.1, some (p.2.getD r))

/-- Fallback response: unreachable, since `page_gen` always yields at
least one slab, so the `resp` variable of the source is always bound
when the final `return resp` runs. -/
def default_resp : AuthzResp := ⟨false, true, none, emptyErrs⟩

/-- Embeds `InProcessCompute.authorize` (lines 108-163): scan deny-effect pages
(filtered by the request action), returning the first response with a
grant or a critical failure; otherwise scan allow-effect pages, returning
early only when `completed` is false AND a grant is present, and
otherwise returning the last allow-page response. -/
def authorize (s : St) (search : SearchFn) (ctxOk : CtxFn) (req : Req)
    (grants_page_size : Nat) (parallel_paging : Bool) (refs_page_size : Nat) :
    Except PyErr AuthzResp :=
  match selectGrants s (some Effect.deny) (some req.action) with
  | .error e => .error e
  | .ok dg =>
    match (scan_pages (core_authorize search ctxOk req) denyCond
        (page_gen dg grants_page_size parallel_paging refs_page_size)).1 with
    | some r => .ok r
    | none =>
      match selectGrants s (some Effect.allow) (some req.action) with
      | .error e => .error e
      | .ok ag =>
        match (scan_pages (core_authorize search ctxOk req) allowCond
            (page_gen ag grants_page_size parallel_paging refs_page_size)).1 with
        | some r => .ok r
        | none =>
          .ok ((scan_pages (core_authorize search ctxOk req) allowCond
              (page_gen ag grants_page_size parallel_paging refs_page_size)).2.getD
            ((scan_pages (core_authorize search ctxOk req) denyCond
                (page_gen dg grants_page_size parallel_paging refs_page_size)).2.getD
              default_resp))

/-! ### Locality (`module_locality.py`, `authzee_async.py` lines 234-240) -/

inductive ModuleLocality where
  | PROCESS
  | SYSTEM
  | NETWORK
deriving DecidableEq, Repr

/-- Embeds `locality_compatibility` (`module_locality.py` lines 26-39). -/
def locality_compatibility : ModuleLocality → List ModuleLocality
  | .PROCESS => [.PROCESS, .SYSTEM, .NETWORK]
  | .SYSTEM => [.SYSTEM, .NETWORK]
  | .NETWORK => [.NETWORK]

/-- The locality gate of `AuthzeeAsync.start` (lines 234-240).  On an
incompatible pairing the source executes
`raise exceptions.LocalityIncompatibility(...)`; the `exceptions` module
defines no attribute named `LocalityIncompatibility` (it defines
`LocalityIncompatibilityError`), so the attribute access itself raises
`AttributeError` — embedded as `PyErr.attributeError`. -/
def start_locality_check (computeLoc storageLoc : ModuleLocality) :
    Except PyErr Unit :=
  if storageLoc ∈ locality_compatibility computeLoc then .ok ()
  else .error .attributeError

/-! ### Association list lemmas -/

theorem alookup_mem {β : Type} {m : List (String × β)} {k : String} {v : β}
    (h : alookup m k = some v) : (k, v) ∈ m := by
  induction m with
  | nil => simp [alookup] at h
  | cons p rest ih =>
    by_cases hp : p.1 = k
    · rw [alookup, if_pos hp] at h
      have hv : p.2 = v := Option.some.inj h
      have : p = (k, v) := by cases p; simp_all
      rw [← this]
      exact List.mem_cons_self _ _
    · rw [alookup, if_neg hp] at h
      exact List.mem_cons_of_mem _ (ih h)

theorem alookup_dinsert_ne {β : Type} (m : List (String × β)) (k k' : String)
    (v : β) (h : k' ≠ k) : alookup (dinsert m k v) k' = alookup m k' := by
  induction m with
  | nil => simp [dinsert, alookup, Ne.symm h]
  | cons p rest ih =>
    by_cases hp : p.1 = k
    · rw [dinsert, if_pos hp, alookup, alookup]
      have h1 : ¬ (k = k') := fun he => h he.symm
      have h2 : ¬ (p.1 = k') := by rw [hp]; exact h1
      rw [if_neg h1, if_neg h2]
    · rw [dinsert, if_neg hp, alookup, alookup]
      by_cases hpk : p.1 = k'
      · rw [if_pos hpk, if_pos hpk]
      · rw [if_neg hpk, if_neg hpk]
        exact ih

theorem mem_dinsert {β : Type} {m : List (String × β)} {k : String} {v : β}
    {p : String × β} (h : p ∈ dinsert m k v) : p ∈ m ∨ p = (k, v) := by
  induction m with
  | nil => simp [dinsert] at h; right; exact h
  | cons q rest ih =>
    by_cases hq : q.1 = k
    · rw [dinsert, if_pos hq] at h
      rcases List.mem_cons.mp h with h | h
      · right; exact h
      · left; exact List.mem_cons_of_mem _ h
    · rw [dinsert, if_neg hq] at h
      rcases List.mem_cons.mp h with h | h
      · left; rw [h]; exact List.mem_cons_self _ _
      · rcases ih h with h | h
        · left; exact List.mem_cons_of_mem _ h
        · right; exact h

theorem alookup_aset_self {β : Type} {m : List (String × β)} {k : String}
    {w : β} (v : β) (h : alookup m k = some w) :
    alookup (aset m k v) k = some v := by
  induction m with
  | nil => simp [alookup] at h
  | cons p rest ih =>
    by_cases hp : p.1 = k
    · rw [aset, if_pos hp, alookup, if_pos rfl]
    · rw [alookup, if_neg hp] at h
      rw [aset, if_neg hp, alookup, if_neg hp]
      exact ih h

theorem alookup_aset_ne {β : Type} (m : List (String × β)) (k k' : String)
    (v : β) (h : k' ≠ k) : alookup (aset m k v) k' = alookup m k' := by
  induction m with
  | nil => simp [aset]
  | cons p rest ih =>
    by_cases hp : p.1 = k
    · rw [aset, if_pos hp, alookup, alookup]
      have h1 : ¬ (k = k') := fun he => h he.symm
      have h2 : ¬ (p.1 = k') := by rw [hp]; exact h1
      rw [if_neg h1, if_neg h2]
    · rw [aset, if_neg hp, alookup, alookup]
      by_cases hpk : p.1 = k'
      · rw [if_pos hpk, if_pos hpk]
      · rw [if_neg hpk, if_neg hpk]
        exact ih

theorem aset_self {β : Type} {m : List (String × β)} {k : String} {v : β}
    (h : alookup m k = some v) : aset m k v = m := by
  induction m with
  | nil => rfl
  | cons p rest ih =>
    by_cases hp : p.1 = k
    · rw [alookup, if_pos hp] at h
      have : p = (k, v) := by cases p; simp_all
      rw [aset, if_pos hp, this]
    · rw [alookup, if_neg hp] at h
      rw [aset, if_neg hp, ih h]

theorem adel_sublist {β : Type} (m : List (String × β)) (k : String) :
    (adel m k).Sublist m := by
  induction m with
  | nil => simp [adel]
  | cons p rest ih =>
    by_cases hp : p.1 = k
    · rw [adel, if_pos hp]
      exact (List.sublist_cons_self p rest)
    · rw [adel, if_neg hp]
      exact List.Sublist.cons₂ p ih

theorem alookup_adel_self {β : Type} {m : List (String × β)} {k : String}
    (hnd : (m.map Prod.fst).Nodup) : alookup (adel m k) k = none := by
  induction m with
  | nil => rfl
  | cons p rest ih =>
    rw [List.map_cons, List.nodup_cons] at hnd
    by_cases hp : p.1 = k
    · rw [adel, if_pos hp]
      rw [← hp]
      cases hl : alookup rest p.1 with
      | none => rfl
      | some w =>
        exact absurd (List.mem_map_of_mem Prod.fst (alookup_mem hl)) hnd.1
    · rw [adel, if_neg hp, alookup, if_neg hp]
      exact ih hnd.2

theorem alookup_adel_ne {β : Type} (m : List (String × β)) (k k' : String)
    (h : k' ≠ k) : alookup (adel m k) k' = alookup m k' := by
  induction m with
  | nil => rfl
  | cons p rest ih =>
    by_cases hp : p.1 = k
    · rw [adel, if_pos hp, alookup]
      have h2 : ¬ (p.1 = k') := by rw [hp]; exact fun he => h he.symm
      rw [if_neg h2]
    · rw [adel, if_neg hp, alookup, alookup]
      by_cases hpk : p.1 = k'
      · rw [if_pos hpk, if_pos hpk]
      · rw [if_neg hpk, if_neg hpk]
        exact ih

theorem adel_map_snd {m : List (String × Grant)} {u : String}
    (hkeys : ∀ p ∈ m, p.2.grant_uuid = p.1) (hnd : (m.map Prod.fst).Nodup) :
    (adel m u).map Prod.snd =
      (m.map Prod.snd).filter (fun g => g.grant_uuid ≠ u) := by
  induction m with
  | nil => rfl
  | cons p rest ih =>
    rw [List.map_cons, List.nodup_cons] at hnd
    have hpk : p.2.grant_uuid = p.1 := hkeys p (List.mem_cons_self _ _)
    have hrest : ∀ q ∈ rest, q.2.grant_uuid = q.1 :=
      fun q hq => hkeys q (List.mem_cons_of_mem _ hq)
    by_cases hp : p.1 = u
    · rw [adel, if_pos hp, List.map_cons, List.filter_cons]
      rw [if_neg (by simp [hpk, hp] : ¬ (decide (p.2.grant_uuid ≠ u) = true))]
      have hall : ∀ g ∈ rest.map Prod.snd, (fun g => decide (g.grant_uuid ≠ u)) g = true := by
        intro g hg
        rcases List.mem_map.mp hg with ⟨q, hq, rfl⟩
        have hqu : q.2.grant_uuid = q.1 := hrest q hq
        have hqk : q.1 ≠ u := by
          intro he
          have : p.1 ∈ List.map Prod.fst rest := by
            rw [hp, ← he]
            exact List.mem_map_of_mem Prod.fst hq
          exact hnd.1 this
        simp [hqu, hqk]
      rw [List.filter_eq_self.mpr hall]
    · rw [adel, if_neg hp, List.map_cons, List.map_cons, List.filter_cons]
      rw [if_pos (by simp [hpk, hp] : decide (p.2.grant_uuid ≠ u) = true)]
      rw [ih hrest hnd.2]

/-! ### Pagination step and coverage lemmas -/

theorem pyStrInt_ofNat (n : Nat) : pyStrInt (n : Int) = pyStrNat n := by
  rw [pyStrInt, if_neg (by omega : ¬ ((n : Int) < 0))]
  simp

/-- Value of one `get_grants_page` call at a cursor denoting index `i`. -/
theorem get_grants_page_list_at (grants : List Grant) (gps i : Nat)
    (r : Option String) (hr : r = none ∧ i = 0 ∨ r = some (pyStrNat i)) :
    get_grants_page_list grants r gps =
      { grants := (grants.drop i).take gps,
        next_page_ref :=
          if i + gps < grants.length then some (pyStrNat (i + gps)) else none } := by
  have hstart : page_start r = (i : Int) := by
    rcases hr with ⟨rfl, rfl⟩ | rfl
    · rfl
    · simp [page_start, pyIntParse_pyStrNat]
  simp only [get_grants_page_list, hstart]
  rw [pySlice_ofNat]
  have hcast : ((i : Int) + (gps : Int) < (grants.length : Int)) ↔
      i + gps < grants.length := by
    constructor <;> intro h <;> omega
  by_cases hlt : i + gps < grants.length
  · rw [if_pos (hcast.mpr hlt), if_pos hlt]
    have : (i : Int) + (gps : Int) = ((i + gps : Nat) : Int) := by push_cast; ring
    rw [this, pyStrInt_ofNat]
  · rw [if_neg (fun hc => hlt (hcast.mp hc)), if_neg hlt]

/-- The storage-level client loop for `get_grants_page`: start at cursor
`None`, follow `next_page_ref` until it is `None`, collecting each page.
Fuel-based (`length + 1` suffices for page sizes ≥ 1). -/
def follow_pages_aux (grants : List Grant) (gps : Nat) :
    Nat → Option String → List (List Grant)
  | 0, _ => []
  | fuel + 1, ref =>
    let p := get_grants_page_list grants ref gps
    p.grants ::
      (match p.next_page_ref with
       | none => []
       | some r => follow_pages_aux grants gps fuel (some r))

/-- Iterating `InProcessStorage.get_grants_page` from `page_ref = None`
until the returned `next_page_ref` is `None` (the state, and hence the
selected list, is fixed for the duration of the scan). -/
def follow_pages (s : St) (effect : Option Effect) (action : Option String)
    (gps : Nat) : Except PyErr (List (List Grant)) :=
  match selectGrants s effect action with
  | .error e => .error e
  | .ok grants => .ok (follow_pages_aux grants gps (grants.length + 1) none)

theorem follow_pages_aux_flatten (grants : List Grant) (gps : Nat)
    (hg : 1 ≤ gps) :
    ∀ fuel i r, grants.length - i < fuel →
      (r = none ∧ i = 0 ∨ r = some (pyStrNat i)) →
      (follow_pages_aux grants gps fuel r).flatten = grants.drop i := by
  intro fuel
  induction fuel with
  | zero => intro i r h hr; omega
  | succ f ih =>
    intro i r h hr
    rw [follow_pages_aux]
    simp only [get_grants_page_list_at grants gps i r hr]
    by_cases hlt : i + gps < grants.length
    · rw [if_pos hlt]
      simp only [List.flatten_cons]
      rw [ih (i + gps) (some (pyStrNat (i + gps))) (by omega) (Or.inr rfl)]
      have hsplit : grants.drop i =
          (grants.drop i).take gps ++ (grants.drop i).drop gps :=
        (List.take_append_drop gps (grants.drop i)).symm
      conv_rhs => rw [hsplit, List.drop_drop]
    · rw [if_neg hlt]
      simp only [List.flatten_cons, List.flatten_nil, List.append_nil]
      have hlen : (grants.drop i).length ≤ gps := by
        rw [List.length_drop]; omega
      exact List.take_of_length_le hlen

theorem follow_pages_aux_ne_nil (grants : List Grant) (gps fuel : Nat)
    (r : Option String) : follow_pages_aux grants gps (fuel + 1) r ≠ [] := by
  rw [follow_pages_aux]
  cases (get_grants_page_list grants r gps).next_page_ref <;> simp

/-- Coverage of the sequential scan: the collected pages concatenate to
exactly the selected list. -/
theorem follow_pages_aux_flatten_top (grants : List Grant) (gps : Nat)
    (hg : 1 ≤ gps) :
    (follow_pages_aux grants gps (grants.length + 1) none).flatten = grants := by
  have := follow_pages_aux_flatten grants gps hg (grants.length + 1) 0 none
    (by omega) (Or.inl ⟨rfl, rfl⟩)
  simpa using this

/-- Value of one `get_grant_page_refs_page` call at a cursor denoting
ref-index `j`. -/
theorem get_page_refs_list_at (grants : List Grant) (gps rps j : Nat)
    (r : Option String) (hr : r = none ∧ j = 0 ∨ r = some (pyStrNat j)) :
    get_page_refs_list grants r gps rps =
      { page_refs := ((all_page_refs grants gps).drop j).take rps,
        next_page_ref :=
          if j + rps < (all_page_refs grants gps).length
          then some (pyStrNat (j + rps)) else none } := by
  have hstart : page_start r = (j : Int) := by
    rcases hr with ⟨rfl, rfl⟩ | rfl
    · rfl
    · simp [page_start, pyIntParse_pyStrNat]
  simp only [get_page_refs_list, hstart]
  rw [pySlice_ofNat]
  have hcast : ((j : Int) + (rps : Int) < ((all_page_refs grants gps).length : Int)) ↔
      j + rps < (all_page_refs grants gps).length := by
    constructor <;> intro h <;> omega
  by_cases hlt : j + rps < (all_page_refs grants gps).length
  · rw [if_pos (hcast.mpr hlt), if_pos hlt]
    have : (j : Int) + (rps : Int) = ((j + rps : Nat) : Int) := by push_cast; ring
    rw [this, pyStrInt_ofNat]
  · rw [if_neg (fun hc => hlt (hcast.mp hc)), if_neg hlt]

theorem get_grants_page_list_grants_at (grants : List Grant) (gps k : Nat) :
    (get_grants_page_list grants (some (pyStrNat k)) gps).grants =
      (grants.drop k).take gps := by
  rw [get_grants_page_list_at grants gps k _ (Or.inr rfl)]

theorem pyRangeAux_fetch (l : List Grant) (gps : Nat) (hg : 1 ≤ gps) :
    ∀ fuel i, l.length - i < fuel →
      ((pyRangeAux gps fuel i l.length).map
        (fun k => (l.drop k).take gps)).flatten = l.drop i := by
  intro fuel
  induction fuel with
  | zero => intro i h; omega
  | succ f ih =>
    intro i h
    by_cases hi : i < l.length
    · rw [pyRangeAux, if_pos hi, List.map_cons, List.flatten_cons,
        ih (i + gps) (by omega)]
      have hsplit : l.drop i = (l.drop i).take gps ++ (l.drop i).drop gps :=
        (List.take_append_drop gps (l.drop i)).symm
      conv_rhs => rw [hsplit, List.drop_drop]
    · rw [pyRangeAux, if_neg hi]
      simp only [List.map_nil, List.flatten_nil]
      exact (List.drop_eq_nil_of_le (by omega)).symm

theorem pyRangeAux_length_le (gps : Nat) (_hg : 1 ≤ gps) :
    ∀ fuel i total, (pyRangeAux gps fuel i total).length ≤ total - i := by
  intro fuel
  induction fuel with
  | zero => intro i total; simp [pyRangeAux]
  | succ f ih =>
    intro i total
    by_cases hi : i < total
    · rw [pyRangeAux, if_pos hi, List.length_cons]
      have := ih (i + gps) total
      omega
    · rw [pyRangeAux, if_neg hi]
      simp

theorem all_page_refs_length_le (grants : List Grant) (gps : Nat)
    (hg : 1 ≤ gps) : (all_page_refs grants gps).length ≤ grants.length := by
  rw [all_page_refs, List.length_map, pyRange]
  have := pyRangeAux_length_le gps hg (grants.length + 1) 0 grants.length
  omega

theorem all_page_refs_fetch_flatten (grants : List Grant) (gps : Nat)
    (hg : 1 ≤ gps) :
    ((all_page_refs grants gps).map
      (fun r => (get_grants_page_list grants (some r) gps).grants)).flatten = grants := by
  rw [all_page_refs, List.map_map]
  have hmap : (pyRange grants.length gps).map
      ((fun r => (get_grants_page_list grants (some r) gps).grants) ∘ pyStrNat) =
      (pyRange grants.length gps).map (fun k => (grants.drop k).take gps) :=
    List.map_congr_left (fun k _ => get_grants_page_list_grants_at grants gps k)
  rw [hmap, pyRange]
  have := pyRangeAux_fetch grants gps hg (grants.length + 1) 0 (by omega)
  simpa using this

theorem page_gen_aux_par_flatten (grants : List Grant) (gps rps : Nat)
    (_hg : 1 ≤ gps) (_hr : 1 ≤ rps) :
    ∀ fuel j r, (all_page_refs grants gps).length - j < fuel →
      (r = none ∧ j = 0 ∨ r = some (pyStrNat j)) →
      (page_gen_aux grants gps true rps fuel r).flatten =
        (((all_page_refs grants gps).drop j).map
          (fun rr => (get_grants_page_list grants (some rr) gps).grants)).flatten := by
  intro fuel
  induction fuel with
  | zero => intro j r h hjr; omega
  | succ f ih =>
    intro j r h hjr
    have hstep : get_page_or_pages_list grants r gps true rps =
        { grants := ((((all_page_refs grants gps).drop j).take rps).map
            (fun rr => (get_grants_page_list grants (some rr) gps).grants)).flatten,
          next_page_ref :=
            if j + rps < (all_page_refs grants gps).length
            then some (pyStrNat (j + rps)) else none } := by
      rw [get_page_or_pages_list, if_pos rfl,
        get_page_refs_list_at grants gps rps j r hjr]
    rw [page_gen_aux, hstep]
    by_cases hlt : j + rps < (all_page_refs grants gps).length
    · rw [if_pos hlt]
      simp only [List.flatten_cons]
      rw [ih (j + rps) (some (pyStrNat (j + rps))) (by omega) (Or.inr rfl)]
      have hdd : (all_page_refs grants gps).drop (j + rps) =
          ((all_page_refs grants gps).drop j).drop rps := (List.drop_drop rps j _).symm
      rw [hdd, ← List.flatten_append, ← List.map_append, List.take_append_drop]
    · rw [if_neg hlt]
      simp only [List.flatten_cons, List.flatten_nil, List.append_nil]
      rw [List.take_of_length_le (by rw [List.length_drop]; omega)]

theorem page_gen_aux_seq_eq_follow (grants : List Grant) (gps rps : Nat) :
    ∀ fuel r, page_gen_aux grants gps false rps fuel r =
      follow_pages_aux grants gps fuel r := by
  intro fuel
  induction fuel with
  | zero => intro r; rfl
  | succ f ih =>
    intro r
    rw [page_gen_aux, follow_pages_aux]
    simp only [get_page_or_pages_list, if_neg (by simp : ¬ (false = true))]
    cases (get_grants_page_list grants r gps).next_page_ref with
    | none => rfl
    | some rr => simp only [ih]

/-- Coverage: the slabs generated by `_page_gen` concatenate to exactly
the selected grant list, in both sequential and parallel paging modes. -/
theorem page_gen_flatten (grants : List Grant) (gps : Nat) (par : Bool)
    (rps : Nat) (hg : 1 ≤ gps) (hpr : par = true → 1 ≤ rps) :
    (page_gen grants gps par rps).flatten = grants := by
  cases par with
  | false =>
    rw [page_gen, page_gen_aux_seq_eq_follow]
    exact follow_pages_aux_flatten_top grants gps hg
  | true =>
    have hr : 1 ≤ rps := hpr rfl
    rw [page_gen]
    have hfuel : (all_page_refs grants gps).length - 0 < grants.length + 1 := by
      have := all_page_refs_length_le grants gps hg
      omega
    rw [page_gen_aux_par_flatten grants gps rps hg hr (grants.length + 1) 0 none
      hfuel (Or.inl ⟨rfl, rfl⟩)]
    simpa using all_page_refs_fetch_flatten grants gps hg

theorem page_gen_ne_nil (grants : List Grant) (gps : Nat) (par : Bool)
    (rps : Nat) : page_gen grants gps par rps ≠ [] := by
  rw [page_gen, page_gen_aux]
  cases (get_page_or_pages_list grants none gps par rps).next_page_ref <;> simp

/-! ### Kernel evaluation lemmas -/

theorem addErrs_nil (acc : ErrBuckets) : addErrs acc [] [] = acc := by
  cases acc; simp [addErrs]

def isMatchB (search : SearchFn) (ctxOk : CtxFn) (req : Req) (g : Grant) : Bool :=
  decide (match_grant search ctxOk req g = .matched)

def firstMatch (search : SearchFn) (ctxOk : CtxFn) (req : Req)
    (l : List Grant) : Option Grant :=
  l.find? (isMatchB search ctxOk req)

/-- A grant whose evaluation is error-free: it is either applicable or a
plain no-match recording no error entries. -/
def CleanGrant (search : SearchFn) (ctxOk : CtxFn) (req : Req) (g : Grant) : Prop :=
  match_grant search ctxOk req g = .matched ∨
    match_grant search ctxOk req g = .noMatch [] []

theorem core_go_clean (search : SearchFn) (ctxOk : CtxFn) (req : Req)
    (l : List Grant) (hcl : ∀ g ∈ l, CleanGrant search ctxOk req g)
    (acc : ErrBuckets) :
    core_authorize_go search ctxOk req l acc =
      match firstMatch search ctxOk req l with
      | some g => ⟨decide (g.effect = Effect.allow), true, some g, acc⟩
      | none => ⟨false, true, none, acc⟩ := by
  induction l with
  | nil => rfl
  | cons g rest ih =>
    rcases hcl g (List.mem_cons_self _ _) with hm | hm
    · have hb : isMatchB search ctxOk req g = true := by simp [isMatchB, hm]
      simp only [core_authorize_go, hm, firstMatch, List.find?_cons_of_pos _ hb]
    · have hb : isMatchB search ctxOk req g = false := by
        simp [isMatchB, hm]
      simp only [core_authorize_go, hm, addErrs_nil]
      rw [ih (fun g' hg' => hcl g' (List.mem_cons_of_mem _ hg'))]
      simp only [firstMatch,
        List.find?_cons_of_neg rest
          (show ¬ isMatchB search ctxOk req g = true by simp [hb])]

theorem core_go_decisive (search : SearchFn) (ctxOk : CtxFn) (req : Req)
    (l : List Grant) (hex : ∃ g ∈ l, match_grant search ctxOk req g = .matched)
    (acc : ErrBuckets) :
    denyCond (core_authorize_go search ctxOk req l acc) = true := by
  induction l generalizing acc with
  | nil => rcases hex with ⟨g, hg, _⟩; simp at hg
  | cons g rest ih =>
    cases hm : match_grant search ctxOk req g with
    | matched => simp [core_authorize_go, hm, denyCond]
    | noMatch ce je =>
      simp only [core_authorize_go, hm]
      apply ih
      rcases hex with ⟨g', hg', hm'⟩
      rcases List.mem_cons.mp hg' with rfl | hg'
      · rw [hm'] at hm; cases hm
      · exact ⟨g', hg', hm'⟩
    | criticalCtx e => simp [core_authorize_go, hm, denyCond]
    | criticalJmes e => simp [core_authorize_go, hm, denyCond]

theorem core_go_not_authorized (search : SearchFn) (ctxOk : CtxFn) (req : Req)
    (l : List Grant) (hd : ∀ g ∈ l, g.effect = Effect.deny) (acc : ErrBuckets) :
    (core_authorize_go search ctxOk req l acc).authorized = false := by
  induction l generalizing acc with
  | nil => rfl
  | cons g rest ih =>
    cases hm : match_grant search ctxOk req g with
    | matched =>
      have := hd g (List.mem_cons_self _ _)
      simp [core_authorize_go, hm, this]
    | noMatch ce je =>
      simp only [core_authorize_go, hm]
      exact ih (fun g' hg' => hd g' (List.mem_cons_of_mem _ hg')) _
    | criticalCtx e => simp [core_authorize_go, hm]
    | criticalJmes e => simp [core_authorize_go, hm]

/-! ### Scan loop lemmas -/

theorem scan_pages_fst_mem (f : List Grant → AuthzResp) (cond : AuthzResp → Bool)
    (slabs : List (List Grant)) (r : AuthzResp)
    (h : (scan_pages f cond slabs).1 = some r) :
    ∃ sl ∈ slabs, r = f sl ∧ cond r = true := by
  induction slabs with
  | nil => simp [scan_pages] at h
  | cons sl rest ih =>
    by_cases hc : cond (f sl)
    · simp only [scan_pages, if_pos hc] at h
      have hr : r = f sl := (Option.some.inj h).symm
      exact ⟨sl, List.mem_cons_self _ _, hr, by rw [hr]; exact hc⟩
    · simp only [scan_pages, if_neg hc] at h
      rcases ih h with ⟨sl', hsl', hr⟩
      exact ⟨sl', List.mem_cons_of_mem _ hsl', hr⟩

theorem scan_pages_fst_isSome (f : List Grant → AuthzResp)
    (cond : AuthzResp → Bool) (slabs : List (List Grant))
    (hex : ∃ sl ∈ slabs, cond (f sl) = true) :
    (scan_pages f cond slabs).1.isSome := by
  induction slabs with
  | nil => rcases hex with ⟨sl, hsl, _⟩; simp at hsl
  | cons sl rest ih =>
    by_cases hc : cond (f sl)
    · simp [scan_pages, if_pos hc]
    · simp only [scan_pages, if_neg hc]
      apply ih
      rcases hex with ⟨sl', hsl', hc'⟩
      rcases List.mem_cons.mp hsl' with rfl | hsl'
      · exact absurd hc' hc
      · exact ⟨sl', hsl', hc'⟩

def respFound (g : Grant) : AuthzResp :=
  ⟨decide (g.effect = Effect.allow), true, some g, emptyErrs⟩

def respUndecided : AuthzResp := ⟨false, true, none, emptyErrs⟩

theorem scan_pages_deny_clean (search : SearchFn) (ctxOk : CtxFn) (req : Req)
    (slabs : List (List Grant))
    (hcl : ∀ g ∈ slabs.flatten, CleanGrant search ctxOk req g) :
    (scan_pages (core_authorize search ctxOk req) denyCond slabs).1 =
      (firstMatch search ctxOk req slabs.flatten).map respFound := by
  induction slabs with
  | nil => rfl
  | cons sl rest ih =>
    have hclsl : ∀ g ∈ sl, CleanGrant search ctxOk req g := by
      intro g hg
      exact hcl g (by rw [List.flatten_cons]; exact List.mem_append_left _ hg)
    have hclrest : ∀ g ∈ rest.flatten, CleanGrant search ctxOk req g := by
      intro g hg
      exact hcl g (by rw [List.flatten_cons]; exact List.mem_append_right _ hg)
    have hcore : core_authorize search ctxOk req sl =
        match firstMatch search ctxOk req sl with
        | some g => ⟨decide (g.effect = Effect.allow), true, some g, emptyErrs⟩
        | none => ⟨false, true, none, emptyErrs⟩ :=
      core_go_clean search ctxOk req sl hclsl emptyErrs
    rw [List.flatten_cons]
    have happ : firstMatch search ctxOk req (sl ++ rest.flatten) =
        (firstMatch search ctxOk req sl).or (firstMatch search ctxOk req rest.flatten) := by
      simp [firstMatch, List.find?_append]
    rw [happ]
    cases hm : firstMatch search ctxOk req sl with
    | some g =>
      rw [hm] at hcore
      have hc : denyCond (core_authorize search ctxOk req sl) = true := by
        rw [hcore]; rfl
      simp only [scan_pages, if_pos hc]
      rw [hcore]
      rfl
    | none =>
      rw [hm] at hcore
      have hc : denyCond (core_authorize search ctxOk req sl) = false := by
        rw [hcore]; rfl
      simp only [scan_pages, if_neg (by rw [hc]; simp : ¬ (denyCond (core_authorize search ctxOk req sl) = true))]
      rw [ih hclrest]
      rfl

theorem scan_pages_allow_clean_nomatch (search : SearchFn) (ctxOk : CtxFn)
    (req : Req) (slabs : List (List Grant))
    (hcl : ∀ g ∈ slabs.flatten, CleanGrant search ctxOk req g)
    (hnm : ∀ g ∈ slabs.flatten, match_grant search ctxOk req g ≠ .matched)
    (hne : slabs ≠ []) :
    scan_pages (core_authorize search ctxOk req) allowCond slabs =
      (none, some respUndecided) := by
  induction slabs with
  | nil => exact absurd rfl hne
  | cons sl rest ih =>
    have hclsl : ∀ g ∈ sl, CleanGrant search ctxOk req g := by
      intro g hg
      exact hcl g (by rw [List.flatten_cons]; exact List.mem_append_left _ hg)
    have hfm : firstMatch search ctxOk req sl = none := by
      rw [firstMatch, List.find?_eq_none]
      intro g hg
      simp only [isMatchB, decide_eq_true_eq]
      exact hnm g (by rw [List.flatten_cons]; exact List.mem_append_left _ hg)
    have hcore : core_authorize search ctxOk req sl = respUndecided := by
      rw [core_authorize, core_go_clean search ctxOk req sl hclsl emptyErrs, hfm]
      rfl
    have hc : ¬ (allowCond (core_authorize search ctxOk req sl) = true) := by
      rw [hcore]; simp [allowCond, respUndecided]
    cases rest with
    | nil =>
      simp only [scan_pages, if_neg hc]
      rw [hcore]
      rfl
    | cons sl2 rest2 =>
      have hrest : scan_pages (core_authorize search ctxOk req) allowCond (sl2 :: rest2) =
          (none, some respUndecided) := by
        apply ih
        · intro g hg
          exact hcl g (by rw [List.flatten_cons]; exact List.mem_append_right _ hg)
        · intro g hg
          exact hnm g (by rw [List.flatten_cons]; exact List.mem_append_right _ hg)
        · simp
      simp only [scan_pages, if_neg hc] at *
      rw [hrest]
      rfl

/-! ### Storage invariant and selection characterization -/

/-- The filter predicate of §4.2 on one grant: effect matches (when
filtered) and the action either appears in `actions` or `actions` is the
wildcard empty list (when filtered). -/
def grant_filter (eff : Option Effect) (act : Option String) (g : Grant) : Bool :=
  (match eff with
   | none => true
   | some e => decide (g.effect = e)) &&
  (match act with
   | none => true
   | some a => decide (a ∈ g.actions) || decide (g.actions = []))

/-- The indexing invariant of the in-process storage (§4.2): every
denormalized index holds, in insertion order, exactly the lookup-table
grants satisfying its filter; keys of the lookup table are the grants'
uuid strings, pairwise distinct; stored actions are declared. -/
structure Inv (s : St) : Prop where
  lutKeys : ∀ p ∈ s.lut, p.2.grant_uuid = p.1
  nodupKeys : (s.lut.map Prod.fst).Nodup
  allowEq : s.allowList = s.lutValues.filter (fun g => decide (g.effect = Effect.allow))
  denyEq : s.denyList = s.lutValues.filter (fun g => decide (g.effect = Effect.deny))
  actionEq : ∀ a ∈ s.declaredActions,
    alookup s.actionBuckets a = some (s.lutValues.filter (fun g => decide (a ∈ g.actions)))
  actionNoneEq : s.actionNone = s.lutValues.filter (fun g => decide (g.actions = []))
  bothAllowEq : ∀ a ∈ s.declaredActions,
    alookup s.bothAllow a =
      some (s.lutValues.filter (fun g => decide (g.effect = Effect.allow ∧ a ∈ g.actions)))
  bothDenyEq : ∀ a ∈ s.declaredActions,
    alookup s.bothDeny a =
      some (s.lutValues.filter (fun g => decide (g.effect = Effect.deny ∧ a ∈ g.actions)))
  bothAllowNoneEq : s.bothAllowNone =
    s.lutValues.filter (fun g => decide (g.effect = Effect.allow ∧ g.actions = []))
  bothDenyNoneEq : s.bothDenyNone =
    s.lutValues.filter (fun g => decide (g.effect = Effect.deny ∧ g.actions = []))
  actionsDeclared : ∀ p ∈ s.lut, ∀ a ∈ p.2.actions, a ∈ s.declaredActions

theorem filter_append_perm_disj {α : Type} (p q : α → Bool) (l : List α)
    (hdisj : ∀ x, ¬ (p x = true ∧ q x = true)) :
    (l.filter p ++ l.filter q).Perm (l.filter (fun x => p x || q x)) := by
  induction l with
  | nil => simp
  | cons x xs ih =>
    by_cases hp : p x = true
    · have hq : q x = false := by
        cases hq : q x
        · rfl
        · exact absurd ⟨hp, hq⟩ (hdisj x)
      rw [List.filter_cons, List.filter_cons, List.filter_cons, if_pos hp, hp]
      simp only [Bool.true_or, if_pos rfl, hq, Bool.false_eq_true, if_false,
        List.cons_append]
      exact List.Perm.cons x ih
    · have hp' : p x = false := by cases hpp : p x; rfl; exact absurd hpp hp
      rw [List.filter_cons, List.filter_cons, List.filter_cons, hp']
      by_cases hq : q x = true
      · simp only [Bool.false_eq_true, if_false, hq, if_pos rfl, Bool.false_or]
        exact List.Perm.trans List.perm_middle (List.Perm.cons x ih)
      · have hq' : q x = false := by cases hqq : q x; rfl; exact absurd hqq hq
        simp only [Bool.false_eq_true, if_false, hq', Bool.false_or]
        exact ih

theorem inv_lutValues_uuid_nodup {s : St} (hInv : Inv s) :
    (s.lutValues.map Grant.grant_uuid).Nodup := by
  have : s.lutValues.map Grant.grant_uuid = s.lut.map Prod.fst := by
    rw [St.lutValues, List.map_map]
    exact List.map_congr_left (fun p hp => hInv.lutKeys p hp)
  rw [this]
  exact hInv.nodupKeys

/-- Selection succeeds for declared (or absent) action filters, and the
selected list is a permutation of the lookup-table grants matching the
filter. -/
theorem selectGrants_ok_of_inv {s : St} (hInv : Inv s) (eff : Option Effect)
    (act : Option String) (hact : ∀ a, act = some a → a ∈ s.declaredActions) :
    ∃ l, selectGrants s eff act = .ok l ∧
      l.Perm (s.lutValues.filter (grant_filter eff act)) := by
  cases eff with
  | some e =>
    cases act with
    | some a =>
      have ha : a ∈ s.declaredActions := hact a rfl
      have hb : alookup (bothMap s e) a =
          some (s.lutValues.filter (fun g => decide (g.effect = e ∧ a ∈ g.actions))) := by
        cases e
        · exact hInv.bothAllowEq a ha
        · exact hInv.bothDenyEq a ha
      have hn : bothNone s e =
          s.lutValues.filter (fun g => decide (g.effect = e ∧ g.actions = [])) := by
        cases e
        · exact hInv.bothAllowNoneEq
        · exact hInv.bothDenyNoneEq
      refine ⟨s.lutValues.filter (fun g => decide (g.effect = e ∧ a ∈ g.actions)) ++
          bothNone s e, ?_, ?_⟩
      · simp only [selectGrants, lookKey, hb]
      · rw [hn]
        have hperm := filter_append_perm_disj
          (fun g => decide (g.effect = e ∧ a ∈ g.actions))
          (fun g => decide (g.effect = e ∧ g.actions = []))
          s.lutValues
          (by
            intro g ⟨h1, h2⟩
            simp only [decide_eq_true_eq] at h1 h2
            rw [h2.2] at h1
            simp at h1)
        have heq : s.lutValues.filter
            (fun g => decide (g.effect = e ∧ a ∈ g.actions) ||
              decide (g.effect = e ∧ g.actions = [])) =
            s.lutValues.filter (grant_filter (some e) (some a)) :=
          List.filter_congr (fun g _ => by
            by_cases h1 : g.effect = e <;> by_cases h2 : a ∈ g.actions <;>
              by_cases h3 : g.actions = [] <;> simp [grant_filter, h1, h2, h3])
        exact heq ▸ hperm
    | none =>
      refine ⟨effectList s e, rfl, ?_⟩
      have he : effectList s e = s.lutValues.filter (fun g => decide (g.effect = e)) := by
        cases e
        · exact hInv.allowEq
        · exact hInv.denyEq
      have heq : s.lutValues.filter (fun g => decide (g.effect = e)) =
          s.lutValues.filter (grant_filter (some e) none) :=
        List.filter_congr (fun g _ => by simp [grant_filter])
      rw [he, heq]
  | none =>
    cases act with
    | some a =>
      have ha : a ∈ s.declaredActions := hact a rfl
      refine ⟨s.lutValues.filter (fun g => decide (a ∈ g.actions)) ++ s.actionNone,
        ?_, ?_⟩
      · simp only [selectGrants, lookKey, hInv.actionEq a ha]
      · rw [hInv.actionNoneEq]
        have hperm := filter_append_perm_disj
          (fun g => decide (a ∈ g.actions))
          (fun g => decide (g.actions = []))
          s.lutValues
          (by
            intro g ⟨h1, h2⟩
            simp only [decide_eq_true_eq] at h1 h2
            rw [h2] at h1
            simp at h1)
        have heq : s.lutValues.filter
            (fun g => decide (a ∈ g.actions) || decide (g.actions = [])) =
            s.lutValues.filter (grant_filter none (some a)) :=
          List.filter_congr (fun g _ => by simp [grant_filter])
        exact heq ▸ hperm
    | none =>
      refine ⟨s.lutValues, rfl, ?_⟩
      have heq : s.lutValues.filter (grant_filter none none) = s.lutValues := by
        rw [List.filter_eq_self]
        intro g _
        rfl
      rw [heq]

/-! ### Claim theorems: decision algorithm -/

/-- C1 (Deny-overrides): for every stored grant set satisfying the
storage invariant and every request with a declared action, if at least
one stored deny grant passes the action filter and matches the request,
then `authorize` succeeds with `authorized = false`, and the returned
response is the one produced inside the deny-effect scan — the
allow-effect scan is never consulted. -/
theorem deny_overrides (s : St) (search : SearchFn) (ctxOk : CtxFn) (req : Req)
    (gps : Nat) (par : Bool) (rps : Nat) (hInv : Inv s)
    (hact : req.action ∈ s.declaredActions) (hgps : 1 ≤ gps)
    (hrps : par = true → 1 ≤ rps)
    (hdeny : ∃ g ∈ s.lutValues, g.effect = Effect.deny ∧
      (req.action ∈ g.actions ∨ g.actions = []) ∧
      match_grant search ctxOk req g = .matched) :
    ∃ dg resp,
      selectGrants s (some Effect.deny) (some req.action) = .ok dg ∧
      (scan_pages (core_authorize search ctxOk req) denyCond
        (page_gen dg gps par rps)).1 = some resp ∧
      resp.authorized = false ∧
      authorize s search ctxOk req gps par rps = .ok resp := by
  obtain ⟨dg, hsel, hperm⟩ := selectGrants_ok_of_inv hInv (some Effect.deny)
    (some req.action) (fun a ha => by cases ha; exact hact)
  obtain ⟨g, hgmem, hgeff, hgact, hgmatch⟩ := hdeny
  have hgf : grant_filter (some Effect.deny) (some req.action) g = true := by
    rcases hgact with h | h <;> simp [grant_filter, hgeff, h]
  have hgdg : g ∈ dg := hperm.mem_iff.mpr (List.mem_filter.mpr ⟨hgmem, hgf⟩)
  have hflat : (page_gen dg gps par rps).flatten = dg :=
    page_gen_flatten dg gps par rps hgps hrps
  obtain ⟨sl, hslmem, hgsl⟩ := List.mem_flatten.mp (show g ∈ (page_gen dg gps par rps).flatten by rw [hflat]; exact hgdg)
  have hdec : denyCond (core_authorize search ctxOk req sl) = true :=
    core_go_decisive search ctxOk req sl ⟨g, hgsl, hgmatch⟩ emptyErrs
  have hsome := scan_pages_fst_isSome (core_authorize search ctxOk req) denyCond
    (page_gen dg gps par rps) ⟨sl, hslmem, hdec⟩
  obtain ⟨resp, hresp⟩ := Option.isSome_iff_exists.mp hsome
  refine ⟨dg, resp, hsel, hresp, ?_, ?_⟩
  · obtain ⟨sl', hsl'mem, hr', _⟩ :=
      scan_pages_fst_mem (core_authorize search ctxOk req) denyCond
        (page_gen dg gps par rps) resp hresp
    have hdenyall : ∀ g' ∈ sl', g'.effect = Effect.deny := by
      intro g' hg'
      have hmem : g' ∈ dg := by
        rw [← hflat]
        exact List.mem_flatten.mpr ⟨sl', hsl'mem, hg'⟩
      have hf := (List.mem_filter.mp (hperm.mem_iff.mp hmem)).2
      simp only [grant_filter, Bool.and_eq_true, decide_eq_true_eq] at hf
      exact hf.1
    rw [hr']
    exact core_go_not_authorized search ctxOk req sl' hdenyall emptyErrs
  · simp only [authorize, hsel, hresp]

/-- C3 (Pagination coverage): for every state satisfying the storage
invariant, every filter pair with a declared (or absent) action, and
every page size ≥ 1, iterating `get_grants_page` from cursor `None` until
`next_page_ref = None` yields pages concatenating to exactly the
selected list, which is a permutation of the stored grants satisfying
the filter (wildcard empty-`actions` grants included for any action
filter), each grant exactly once (distinct uuids). -/
theorem pagination_coverage (s : St) (eff : Option Effect) (act : Option String)
    (gps : Nat) (hInv : Inv s) (hact : ∀ a, act = some a → a ∈ s.declaredActions)
    (hgps : 1 ≤ gps) :
    ∃ sel pages,
      selectGrants s eff act = .ok sel ∧
      follow_pages s eff act gps = .ok pages ∧
      pages.flatten = sel ∧
      sel.Perm (s.lutValues.filter (grant_filter eff act)) ∧
      (sel.map Grant.grant_uuid).Nodup := by
  obtain ⟨sel, hsel, hperm⟩ := selectGrants_ok_of_inv hInv eff act hact
  refine ⟨sel, follow_pages_aux sel gps (sel.length + 1) none, hsel, ?_, ?_, hperm, ?_⟩
  · simp only [follow_pages, hsel]
  · exact follow_pages_aux_flatten_top sel gps hgps
  · have hnd := inv_lutValues_uuid_nodup hInv
    have hsub : (s.lutValues.filter (grant_filter eff act)).Sublist s.lutValues :=
      List.filter_sublist _
    have hfnd : ((s.lutValues.filter (grant_filter eff act)).map Grant.grant_uuid).Nodup :=
      (hsub.map Grant.grant_uuid).nodup hnd
    exact ((hperm.map Grant.grant_uuid).nodup_iff).mpr hfnd

/-- C4 amended (Parallel equivalence, error-free cases): when the kernel
evaluates every stored grant without recording errors, and either some
deny grant passing the filter matches or no allow grant passing the
filter matches, `authorize` returns the same response under parallel and
sequential paging.  (When a matching allow grant lies on a non-final
slab the two modes can disagree — see the counterexample.) -/
theorem parallel_equivalence (s : St) (search : SearchFn) (ctxOk : CtxFn)
    (req : Req) (gps rps : Nat) (hInv : Inv s)
    (hact : req.action ∈ s.declaredActions) (hgps : 1 ≤ gps) (hrps : 1 ≤ rps)
    (hclean : ∀ g ∈ s.lutValues, CleanGrant search ctxOk req g)
    (hcase : (∃ g ∈ s.lutValues,
        grant_filter (some Effect.deny) (some req.action) g = true ∧
        match_grant search ctxOk req g = .matched) ∨
      (∀ g ∈ s.lutValues,
        grant_filter (some Effect.allow) (some req.action) g = true →
        match_grant search ctxOk req g ≠ .matched)) :
    authorize s search ctxOk req gps true rps =
      authorize s search ctxOk req gps false rps := by
  obtain ⟨dg, hseld, hpermd⟩ := selectGrants_ok_of_inv hInv (some Effect.deny)
    (some req.action) (fun a ha => by cases ha; exact hact)
  obtain ⟨ag, hsela, hperma⟩ := selectGrants_ok_of_inv hInv (some Effect.allow)
    (some req.action) (fun a ha => by cases ha; exact hact)
  have hdgsub : ∀ g ∈ dg, g ∈ s.lutValues := fun g hg =>
    (List.mem_filter.mp (hpermd.mem_iff.mp hg)).1
  have hagsub : ∀ g ∈ ag, g ∈ s.lutValues := fun g hg =>
    (List.mem_filter.mp (hperma.mem_iff.mp hg)).1
  have hflatdT : (page_gen dg gps true rps).flatten = dg :=
    page_gen_flatten dg gps true rps hgps (fun _ => hrps)
  have hflatdF : (page_gen dg gps false rps).flatten = dg :=
    page_gen_flatten dg gps false rps hgps (by simp)
  have hsdT : (scan_pages (core_authorize search ctxOk req) denyCond
      (page_gen dg gps true rps)).1 =
      (firstMatch search ctxOk req dg).map respFound := by
    have h := scan_pages_deny_clean search ctxOk req (page_gen dg gps true rps)
      (by intro g hg; exact hclean g (hdgsub g (hflatdT ▸ hg)))
    rw [hflatdT] at h
    exact h
  have hsdF : (scan_pages (core_authorize search ctxOk req) denyCond
      (page_gen dg gps false rps)).1 =
      (firstMatch search ctxOk req dg).map respFound := by
    have h := scan_pages_deny_clean search ctxOk req (page_gen dg gps false rps)
      (by intro g hg; exact hclean g (hdgsub g (hflatdF ▸ hg)))
    rw [hflatdF] at h
    exact h
  cases hfm : firstMatch search ctxOk req dg with
  | some g =>
    simp only [authorize, hseld, hsdT, hsdF, hfm, Option.map_some']
  | none =>
    have hnm : ∀ g ∈ ag, match_grant search ctxOk req g ≠ .matched := by
      rcases hcase with ⟨g, hgmem, hgf, hgm⟩ | hno
      · exfalso
        have hgdg : g ∈ dg := hpermd.mem_iff.mpr (List.mem_filter.mpr ⟨hgmem, hgf⟩)
        have := List.find?_eq_none.mp hfm g hgdg
        simp only [isMatchB, decide_eq_true_eq] at this
        exact this hgm
      · intro g hg
        exact hno g (hagsub g hg) (List.mem_filter.mp (hperma.mem_iff.mp hg)).2
    have hflataT : (page_gen ag gps true rps).flatten = ag :=
      page_gen_flatten ag gps true rps hgps (fun _ => hrps)
    have hflataF : (page_gen ag gps false rps).flatten = ag :=
      page_gen_flatten ag gps false rps hgps (by simp)
    have hAT : scan_pages (core_authorize search ctxOk req) allowCond
        (page_gen ag gps true rps) = (none, some respUndecided) :=
      scan_pages_allow_clean_nomatch search ctxOk req _
        (by intro g hg; exact hclean g (hagsub g (hflataT ▸ hg)))
        (by intro g hg; exact hnm g (hflataT ▸ hg))
        (page_gen_ne_nil ag gps true rps)
    have hAF : scan_pages (core_authorize search ctxOk req) allowCond
        (page_gen ag gps false rps) = (none, some respUndecided) :=
      scan_pages_allow_clean_nomatch search ctxOk req _
        (by intro g hg; exact hclean g (hagsub g (hflataF ▸ hg)))
        (by intro g hg; exact hnm g (hflataF ▸ hg))
        (page_gen_ne_nil ag gps false rps)
    simp only [authorize, hseld, hsdT, hsdF, hfm, Option.map_none', hsela, hAT, hAF]
    rfl

/-! ### Repeal lemmas -/

theorem setBothMap_fields (s : St) (e : Effect) (m : List (String × List Grant)) :
    (setBothMap s e m).lut = s.lut ∧
    (setBothMap s e m).allowList = s.allowList ∧
    (setBothMap s e m).denyList = s.denyList ∧
    (setBothMap s e m).actionBuckets = s.actionBuckets ∧
    (setBothMap s e m).actionNone = s.actionNone ∧
    (setBothMap s e m).bothAllowNone = s.bothAllowNone ∧
    (setBothMap s e m).bothDenyNone = s.bothDenyNone ∧
    bothMap (setBothMap s e m) e = m ∧
    (∀ e', e' ≠ e → bothMap (setBothMap s e m) e' = bothMap s e') := by
  cases e <;> refine ⟨rfl, rfl, rfl, rfl, rfl, rfl, rfl, rfl, ?_⟩ <;>
    (intro e' he'; cases e' <;> first | rfl | exact absurd rfl he')

theorem setEffectList_fields (s : St) (e : Effect) (l : List Grant) :
    (setEffectList s e l).lut = s.lut ∧
    (setEffectList s e l).actionBuckets = s.actionBuckets ∧
    (setEffectList s e l).actionNone = s.actionNone ∧
    (setEffectList s e l).bothAllow = s.bothAllow ∧
    (setEffectList s e l).bothDeny = s.bothDeny ∧
    (setEffectList s e l).bothAllowNone = s.bothAllowNone ∧
    (setEffectList s e l).bothDenyNone = s.bothDenyNone ∧
    effectList (setEffectList s e l) e = l ∧
    (∀ e', e' ≠ e → effectList (setEffectList s e l) e' = effectList s e') := by
  cases e <;> refine ⟨rfl, rfl, rfl, rfl, rfl, rfl, rfl, rfl, ?_⟩ <;>
    (intro e' he'; cases e' <;> first | rfl | exact absurd rfl he')

theorem setBothNone_fields (s : St) (e : Effect) (l : List Grant) :
    (setBothNone s e l).lut = s.lut ∧
    (setBothNone s e l).allowList = s.allowList ∧
    (setBothNone s e l).denyList = s.denyList ∧
    (setBothNone s e l).actionBuckets = s.actionBuckets ∧
    (setBothNone s e l).actionNone = s.actionNone ∧
    (setBothNone s e l).bothAllow = s.bothAllow ∧
    (setBothNone s e l).bothDeny = s.bothDeny ∧
    bothNone (setBothNone s e l) e = l ∧
    (∀ e', e' ≠ e → bothNone (setBothNone s e l) e' = bothNone s e') := by
  cases e <;> refine ⟨rfl, rfl, rfl, rfl, rfl, rfl, rfl, rfl, ?_⟩ <;>
    (intro e' he'; cases e' <;> first | rfl | exact absurd rfl he')

theorem bucket_repeal_eq_self {l : List Grant} {u : String}
    (h : ∀ x ∈ l, x.grant_uuid ≠ u) : bucket_repeal u l = l :=
  List.filter_eq_self.mpr (fun x hx => by simp [h x hx])

theorem bucket_repeal_idem (u : String) (l : List Grant) :
    bucket_repeal u (bucket_repeal u l) = bucket_repeal u l := by
  simp only [bucket_repeal, List.filter_filter]
  exact List.filter_congr (fun x _ => Bool.and_self _)

theorem bucket_repeal_append (u : String) (l₁ l₂ : List Grant) :
    bucket_repeal u (l₁ ++ l₂) = bucket_repeal u l₁ ++ bucket_repeal u l₂ := by
  simp only [bucket_repeal, List.filter_append]

theorem alookup_eq_of_mem_nodup {β : Type} {m : List (String × β)} {k : String}
    {v : β} (hnd : (m.map Prod.fst).Nodup) (hmem : (k, v) ∈ m) :
    alookup m k = some v := by
  induction m with
  | nil => simp at hmem
  | cons p rest ih =>
    rw [List.map_cons, List.nodup_cons] at hnd
    rcases List.mem_cons.mp hmem with heq | hmem'
    · rw [← heq, alookup, if_pos rfl]
    · by_cases hp : p.1 = k
      · exfalso
        apply hnd.1
        rw [hp]
        exact List.mem_map_of_mem Prod.fst hmem'
      · rw [alookup, if_neg hp]
        exact ih hnd.2 hmem'

theorem inv_uuid_unique {s : St} (hInv : Inv s) {u : String} {g : Grant}
    (hlu : alookup s.lut u = some g) :
    ∀ x ∈ s.lutValues, x.grant_uuid = u → x = g := by
  intro x hx hxu
  obtain ⟨p, hp, hpx⟩ := List.mem_map.mp hx
  have hkey : p.1 = u := by
    rw [← hInv.lutKeys p hp, hpx, hxu]
  have hpe : p = (u, x) := by
    cases p
    simp only [Prod.mk.injEq]
    exact ⟨hkey, hpx⟩
  have := alookup_eq_of_mem_nodup hInv.nodupKeys (hpe ▸ hp)
  rw [hlu] at this
  exact (Option.some.inj this).symm

/-- Result of the per-action index updates of `repeal`: the touched keys
hold the filtered buckets, everything else is untouched. -/
theorem repealActions_spec (u : String) (e : Effect) :
    ∀ (acts : List String) (s : St),
      (∀ a ∈ acts, (alookup s.actionBuckets a).isSome) →
      (∀ a ∈ acts, (alookup (bothMap s e) a).isSome) →
      ∃ s', repealActions u e s acts = .ok s' ∧
        s'.lut = s.lut ∧
        s'.allowList = s.allowList ∧
        s'.denyList = s.denyList ∧
        s'.actionNone = s.actionNone ∧
        s'.bothAllowNone = s.bothAllowNone ∧
        s'.bothDenyNone = s.bothDenyNone ∧
        (∀ e', e' ≠ e → bothMap s' e' = bothMap s e') ∧
        (∀ k, alookup s'.actionBuckets k =
          if k ∈ acts
          then (alookup s.actionBuckets k).map (bucket_repeal u)
          else alookup s.actionBuckets k) ∧
        (∀ k, alookup (bothMap s' e) k =
          if k ∈ acts
          then (alookup (bothMap s e) k).map (bucket_repeal u)
          else alookup (bothMap s e) k) := by
  intro acts
  induction acts with
  | nil =>
    intro s _ _
    refine ⟨s, rfl, rfl, rfl, rfl, rfl, rfl, rfl, fun _ _ => rfl, ?_, ?_⟩ <;>
      (intro k; rw [if_neg (by simp)])
  | cons a rest ih =>
    intro s hab hbb
    obtain ⟨xs, hxs⟩ := Option.isSome_iff_exists.mp (hab a (List.mem_cons_self _ _))
    obtain ⟨ys, hys⟩ := Option.isSome_iff_exists.mp (hbb a (List.mem_cons_self _ _))
    set sab : St := { s with actionBuckets := aset s.actionBuckets a (bucket_repeal u xs) } with hsab
    have hmid := setBothMap_fields sab e (aset (bothMap s e) a (bucket_repeal u ys))
    set smid := setBothMap sab e (aset (bothMap s e) a (bucket_repeal u ys)) with hsmid
    have hmidab : smid.actionBuckets = aset s.actionBuckets a (bucket_repeal u xs) :=
      hmid.2.2.2.1
    have hmidbm : bothMap smid e = aset (bothMap s e) a (bucket_repeal u ys) :=
      hmid.2.2.2.2.2.2.2.1
    have habm : ∀ k, alookup smid.actionBuckets k =
        if k = a
        then some (bucket_repeal u xs)
        else alookup s.actionBuckets k := by
      intro k
      rw [hmidab]
      by_cases hk : k = a
      · rw [if_pos hk, hk]
        exact alookup_aset_self _ hxs
      · rw [if_neg hk, alookup_aset_ne _ _ _ _ hk]
    have hbbm : ∀ k, alookup (bothMap smid e) k =
        if k = a
        then some (bucket_repeal u ys)
        else alookup (bothMap s e) k := by
      intro k
      rw [hmidbm]
      by_cases hk : k = a
      · rw [if_pos hk, hk]
        exact alookup_aset_self _ hys
      · rw [if_neg hk, alookup_aset_ne _ _ _ _ hk]
    obtain ⟨s', hrec, h1, h2, h3, h4, h5, h6, h7, h8, h9⟩ := ih smid
      (by
        intro a' ha'
        rw [habm a']
        by_cases hk : a' = a
        · rw [if_pos hk]; rfl
        · rw [if_neg hk]; exact hab a' (List.mem_cons_of_mem _ ha'))
      (by
        intro a' ha'
        rw [hbbm a']
        by_cases hk : a' = a
        · rw [if_pos hk]; rfl
        · rw [if_neg hk]; exact hbb a' (List.mem_cons_of_mem _ ha'))
    have hablut : smid.lut = s.lut := hmid.1
    have haballow : smid.allowList = s.allowList := hmid.2.1
    have habdeny : smid.denyList = s.denyList := hmid.2.2.1
    have habnone : smid.actionNone = s.actionNone := hmid.2.2.2.2.1
    have haban : smid.bothAllowNone = s.bothAllowNone := hmid.2.2.2.2.2.1
    have habdn : smid.bothDenyNone = s.bothDenyNone := hmid.2.2.2.2.2.2.1
    have habo : ∀ e', e' ≠ e → bothMap smid e' = bothMap s e' := fun e' he' =>
      hmid.2.2.2.2.2.2.2.2 e' he'
    refine ⟨s', ?_, ?_, ?_, ?_, ?_, ?_, ?_, ?_, ?_, ?_⟩
    · rw [repealActions]
      rw [filterAtKey, hxs, filterAtKey, hys]
      exact hrec
    · rw [h1, hablut]
    · rw [h2, haballow]
    · rw [h3, habdeny]
    · rw [h4, habnone]
    · rw [h5, haban]
    · rw [h6, habdn]
    · intro e' he'
      rw [h7 e' he', habo e' he']
    · intro k
      rw [h8 k, habm k]
      by_cases hk1 : k ∈ rest
      · rw [if_pos hk1, if_pos (List.mem_cons_of_mem _ hk1)]
        by_cases hk2 : k = a
        · rw [if_pos hk2, hk2, hxs]
          simp only [Option.map_some']
          rw [bucket_repeal_idem]
        · rw [if_neg hk2]
      · rw [if_neg hk1]
        by_cases hk2 : k = a
        · rw [if_pos hk2, if_pos (by rw [hk2]; exact List.mem_cons_self _ _), hk2, hxs]
          rfl
        · rw [if_neg hk2,
            if_neg (fun hmem => (List.mem_cons.mp hmem).elim hk2 hk1)]
    · intro k
      rw [h9 k, hbbm k]
      by_cases hk1 : k ∈ rest
      · rw [if_pos hk1, if_pos (List.mem_cons_of_mem _ hk1)]
        by_cases hk2 : k = a
        · rw [if_pos hk2, hk2, hys]
          simp only [Option.map_some']
          rw [bucket_repeal_idem]
        · rw [if_neg hk2]
      · rw [if_neg hk1]
        by_cases hk2 : k = a
        · rw [if_pos hk2, if_pos (by rw [hk2]; exact List.mem_cons_self _ _), hk2, hys]
          rfl
        · rw [if_neg hk2,
            if_neg (fun hmem => (List.mem_cons.mp hmem).elim hk2 hk1)]

theorem effectList_congr {t t' : St} (h1 : t'.allowList = t.allowList)
    (h2 : t'.denyList = t.denyList) : ∀ X, effectList t' X = effectList t X := by
  intro X
  cases X
  · exact h1
  · exact h2

theorem bothMap_congr {t t' : St} (h1 : t'.bothAllow = t.bothAllow)
    (h2 : t'.bothDeny = t.bothDeny) : ∀ X, bothMap t' X = bothMap t X := by
  intro X
  cases X
  · exact h1
  · exact h2

theorem bothNone_congr {t t' : St} (h1 : t'.bothAllowNone = t.bothAllowNone)
    (h2 : t'.bothDenyNone = t.bothDenyNone) : ∀ X, bothNone t' X = bothNone t X := by
  intro X
  cases X
  · exact h1
  · exact h2

theorem bucket_repeal_filter_noop {s : St} (hInv : Inv s) {u : String} {g : Grant}
    (hlu : alookup s.lut u = some g) (p : Grant → Bool) (hp : p g = false) :
    bucket_repeal u (s.lutValues.filter p) = s.lutValues.filter p := by
  apply bucket_repeal_eq_self
  intro x hx hxu
  have hxg : x = g := inv_uuid_unique hInv hlu x (List.mem_filter.mp hx).1 hxu
  have hmem := (List.mem_filter.mp hx).2
  rw [hxg, hp] at hmem
  cases hmem

/-- Relation between the pre- and post-`repeal` states: every index holds
its old content with the repealed uuid's grant filtered out (bucket maps
characterized at declared keys). -/
structure RepealedFrom (s s' : St) (u : String) : Prop where
  lutEq : s'.lut = adel s.lut u
  valuesEq : s'.lutValues = bucket_repeal u s.lutValues
  effectEq : ∀ X, effectList s' X = bucket_repeal u (effectList s X)
  actionEq : ∀ a ∈ s.declaredActions,
    alookup s'.actionBuckets a = (alookup s.actionBuckets a).map (bucket_repeal u)
  actionNoneEq : s'.actionNone = bucket_repeal u s.actionNone
  bothEq : ∀ X, ∀ a ∈ s.declaredActions,
    alookup (bothMap s' X) a = (alookup (bothMap s X) a).map (bucket_repeal u)
  bothNoneEq : ∀ X, bothNone s' X = bucket_repeal u (bothNone s X)

/-- After a repeal, every filtered selection is the old selection with
the repealed uuid dropped (same grants, same order). -/
theorem selectGrants_of_repealed {s s' : St} {u : String}
    (h : RepealedFrom s s' u) (eff : Option Effect) (act : Option String)
    (hact : ∀ a, act = some a → a ∈ s.declaredActions) (sel : List Grant)
    (hsel : selectGrants s eff act = .ok sel) :
    selectGrants s' eff act = .ok (bucket_repeal u sel) := by
  cases eff with
  | some e =>
    cases act with
    | some a =>
      have ha := hact a rfl
      cases hx : alookup (bothMap s e) a with
      | none =>
        simp only [selectGrants, lookKey, hx] at hsel
        exact Except.noConfusion hsel
      | some xs =>
        have hsel' : sel = xs ++ bothNone s e := by
          simp only [selectGrants, lookKey, hx] at hsel
          exact (Except.ok.inj hsel).symm
        have hba' : alookup (bothMap s' e) a = some (bucket_repeal u xs) := by
          rw [h.bothEq e a ha, hx]
          rfl
        simp only [selectGrants, lookKey, hba', h.bothNoneEq e]
        rw [hsel', bucket_repeal_append]
    | none =>
      have hsel' : sel = effectList s e := (Except.ok.inj hsel).symm
      show Except.ok (effectList s' e) = _
      rw [h.effectEq e, hsel']
  | none =>
    cases act with
    | some a =>
      have ha := hact a rfl
      cases hx : alookup s.actionBuckets a with
      | none =>
        simp only [selectGrants, lookKey, hx] at hsel
        exact Except.noConfusion hsel
      | some xs =>
        have hsel' : sel = xs ++ s.actionNone := by
          simp only [selectGrants, lookKey, hx] at hsel
          exact (Except.ok.inj hsel).symm
        have hba' : alookup s'.actionBuckets a = some (bucket_repeal u xs) := by
          rw [h.actionEq a ha, hx]
          rfl
        simp only [selectGrants, lookKey, hba', h.actionNoneEq]
        rw [hsel', bucket_repeal_append]
    | none =>
      have hsel' : sel = s.lutValues := (Except.ok.inj hsel).symm
      show Except.ok s'.lutValues = _
      rw [h.valuesEq, hsel']

/-- A successful `repeal`: when the uuid is stored and the invariant
holds, `repeal` succeeds and the new state is the old one with that
grant filtered out of the lookup table and every index. -/
theorem repeal_ok {s : St} {u : String} {g : Grant} (hInv : Inv s)
    (hlu : alookup s.lut u = some g) :
    ∃ s', repeal s u = .ok s' ∧ RepealedFrom s s' u := by
  have hpmem : (u, g) ∈ s.lut := alookup_mem hlu
  have hgu : g.grant_uuid = u := hInv.lutKeys (u, g) hpmem
  have hgmem : g ∈ s.lutValues := List.mem_map_of_mem Prod.snd hpmem
  have hvalues : (adel s.lut u).map Prod.snd = bucket_repeal u s.lutValues := by
    rw [bucket_repeal]
    exact adel_map_snd hInv.lutKeys hInv.nodupKeys
  have hEffX : ∀ X, effectList s X =
      s.lutValues.filter (fun gg => decide (gg.effect = X)) := by
    intro X
    cases X
    · exact hInv.allowEq
    · exact hInv.denyEq
  have hBothNoneX : ∀ X, bothNone s X =
      s.lutValues.filter (fun gg => decide (gg.effect = X ∧ gg.actions = [])) := by
    intro X
    cases X
    · exact hInv.bothAllowNoneEq
    · exact hInv.bothDenyNoneEq
  have hBothX : ∀ X, ∀ a ∈ s.declaredActions, alookup (bothMap s X) a =
      some (s.lutValues.filter (fun gg => decide (gg.effect = X ∧ a ∈ gg.actions))) := by
    intro X
    cases X
    · exact hInv.bothAllowEq
    · exact hInv.bothDenyEq
  by_cases hga : g.actions = []
  · set s1 : St := { s with lut := adel s.lut u } with hs1
    set s2 : St := setEffectList s1 g.effect (bucket_repeal u (effectList s1 g.effect)) with hs2
    set s3 : St := { s2 with actionNone := bucket_repeal u s2.actionNone } with hs3
    set s4 : St := setBothNone s3 g.effect (bucket_repeal u (bothNone s3 g.effect)) with hs4
    have hef := setEffectList_fields s1 g.effect (bucket_repeal u (effectList s1 g.effect))
    rw [← hs2] at hef
    have hbn := setBothNone_fields s3 g.effect (bucket_repeal u (bothNone s3 g.effect))
    rw [← hs4] at hbn
    have hrep : repeal s u = .ok s4 := by
      simp only [repeal, hlu, hgu]
      rw [if_pos hga]
    have hlutchain : s4.lut = adel s.lut u := by
      rw [hbn.1]
      show s2.lut = adel s.lut u
      rw [hef.1]
    have heffs1 : ∀ X, effectList s1 X = effectList s X :=
      effectList_congr rfl rfl
    have hbns1 : ∀ X, bothNone s1 X = bothNone s X :=
      bothNone_congr rfl rfl
    refine ⟨s4, hrep, ?_, ?_, ?_, ?_, ?_, ?_, ?_⟩
    · exact hlutchain
    · show s4.lut.map Prod.snd = _
      rw [hlutchain, hvalues]
    · intro X
      have h43 : effectList s4 X = effectList s3 X :=
        effectList_congr hbn.2.1 hbn.2.2.1 X
      have h32 : effectList s3 X = effectList s2 X :=
        effectList_congr rfl rfl X
      rw [h43, h32]
      by_cases hX : X = g.effect
      · rw [hX, hef.2.2.2.2.2.2.2.1, heffs1]
      · rw [hef.2.2.2.2.2.2.2.2 X hX, heffs1 X, hEffX X,
          bucket_repeal_filter_noop hInv hlu _
            (by simp; exact fun hh => hX hh.symm)]
    · intro a ha
      have h4 : s4.actionBuckets = s.actionBuckets := by
        rw [hbn.2.2.2.1]
        show s2.actionBuckets = s.actionBuckets
        rw [hef.2.1]
      rw [h4, hInv.actionEq a ha, Option.map_some',
        bucket_repeal_filter_noop hInv hlu _ (by simp [hga])]
    · have h4 : s4.actionNone = bucket_repeal u s2.actionNone := hbn.2.2.2.2.1
      rw [h4]
      show bucket_repeal u s2.actionNone = bucket_repeal u s.actionNone
      rw [hef.2.2.1]
    · intro X a ha
      have h43 : bothMap s4 X = bothMap s3 X :=
        bothMap_congr hbn.2.2.2.2.2.1 hbn.2.2.2.2.2.2.1 X
      have h32 : bothMap s3 X = bothMap s2 X :=
        bothMap_congr rfl rfl X
      have h21 : bothMap s2 X = bothMap s X := by
        rw [bothMap_congr hef.2.2.2.1 hef.2.2.2.2.1 X]
        exact bothMap_congr rfl rfl X
      rw [h43, h32, h21, hBothX X a ha, Option.map_some',
        bucket_repeal_filter_noop hInv hlu _ (by simp [hga])]
    · intro X
      by_cases hX : X = g.effect
      · rw [hX, hbn.2.2.2.2.2.2.2.1]
        show bucket_repeal u (bothNone s3 g.effect) = _
        have h32 : bothNone s3 g.effect = bothNone s2 g.effect :=
          bothNone_congr rfl rfl g.effect
        have h21 : bothNone s2 g.effect = bothNone s g.effect := by
          rw [bothNone_congr hef.2.2.2.2.2.1 hef.2.2.2.2.2.2.1 g.effect]
          exact hbns1 g.effect
        rw [h32, h21]
      · rw [hbn.2.2.2.2.2.2.2.2 X hX]
        have h32 : bothNone s3 X = bothNone s2 X := bothNone_congr rfl rfl X
        have h21 : bothNone s2 X = bothNone s X := by
          rw [bothNone_congr hef.2.2.2.2.2.1 hef.2.2.2.2.2.2.1 X]
          exact hbns1 X
        rw [h32, h21, hBothNoneX X,
          bucket_repeal_filter_noop hInv hlu _
            (by simp; exact fun hh _ => hX hh.symm)]
  · set s1 : St := { s with lut := adel s.lut u } with hs1
    set s2 : St := setEffectList s1 g.effect (bucket_repeal u (effectList s1 g.effect)) with hs2
    have hef := setEffectList_fields s1 g.effect (bucket_repeal u (effectList s1 g.effect))
    rw [← hs2] at hef
    have hdecl : ∀ a ∈ g.actions, a ∈ s.declaredActions :=
      hInv.actionsDeclared (u, g) hpmem
    have hab2 : s2.actionBuckets = s.actionBuckets := by
      rw [hef.2.1]
    have hbm2 : ∀ X, bothMap s2 X = bothMap s X := by
      intro X
      rw [bothMap_congr hef.2.2.2.1 hef.2.2.2.2.1 X]
      exact bothMap_congr rfl rfl X
    obtain ⟨s', hra, hl', hall', hden', han', hban', hbdn', hbo', hab', hbm'⟩ :=
      repealActions_spec u g.effect g.actions s2
        (by
          intro a ha'
          rw [hab2, hInv.actionEq a (hdecl a ha')]
          rfl)
        (by
          intro a ha'
          rw [hbm2 g.effect, hBothX g.effect a (hdecl a ha')]
          rfl)
    have hrep : repeal s u = .ok s' := by
      simp only [repeal, hlu, hgu]
      rw [if_neg hga]
      exact hra
    have hlutchain : s'.lut = adel s.lut u := by
      rw [hl']
      show s2.lut = adel s.lut u
      rw [hef.1]
    have heffs1 : ∀ X, effectList s1 X = effectList s X :=
      effectList_congr rfl rfl
    refine ⟨s', hrep, ?_, ?_, ?_, ?_, ?_, ?_, ?_⟩
    · exact hlutchain
    · show s'.lut.map Prod.snd = _
      rw [hlutchain, hvalues]
    · intro X
      have h2 : effectList s' X = effectList s2 X := effectList_congr hall' hden' X
      rw [h2]
      by_cases hX : X = g.effect
      · rw [hX, hef.2.2.2.2.2.2.2.1, heffs1]
      · rw [hef.2.2.2.2.2.2.2.2 X hX, heffs1 X, hEffX X,
          bucket_repeal_filter_noop hInv hlu _
            (by simp; exact fun hh => hX hh.symm)]
    · intro a ha
      rw [hab' a, hab2]
      by_cases hmem : a ∈ g.actions
      · rw [if_pos hmem]
      · rw [if_neg hmem, hInv.actionEq a ha, Option.map_some',
          bucket_repeal_filter_noop hInv hlu _ (by simp [hmem])]
    · rw [han', hInv.actionNoneEq,
        bucket_repeal_filter_noop hInv hlu _ (by simp [hga])]
      show s2.actionNone = _
      rw [hef.2.2.1, hInv.actionNoneEq]
    · intro X a ha
      by_cases hX : X = g.effect
      · rw [hX, hbm' a, hbm2 g.effect]
        by_cases hmem : a ∈ g.actions
        · rw [if_pos hmem]
        · rw [if_neg hmem, hBothX g.effect a ha, Option.map_some',
            bucket_repeal_filter_noop hInv hlu _ (by simp [hmem])]
      · rw [hbo' X hX, hbm2 X, hBothX X a ha, Option.map_some',
          bucket_repeal_filter_noop hInv hlu _
            (by simp; exact fun hh _ => hX hh.symm)]
    · intro X
      have h2 : bothNone s' X = bothNone s2 X := bothNone_congr hban' hbdn' X
      have h21 : bothNone s2 X = bothNone s X := by
        rw [bothNone_congr hef.2.2.2.2.2.1 hef.2.2.2.2.2.2.1 X]
        exact bothNone_congr rfl rfl X
      rw [h2, h21, hBothNoneX X,
        bucket_repeal_filter_noop hInv hlu _ (by simp [hga])]

/-- C8 (Repeal): `repeal(u)` raises `GrantNotFoundError` exactly when no
stored grant has uuid `u`; after a successful repeal, `get_grant(u)`
raises `GrantNotFoundError`, the repealed grant appears in no page of
any subsequent filtered scan, and every other stored grant is returned
unchanged (same values, same order). -/
theorem repeal_spec (s : St) (u : String) (gps : Nat) (hInv : Inv s)
    (hgps : 1 ≤ gps) :
    (repeal s u = .error .grantNotFound ↔ alookup s.lut u = none) ∧
    (∀ s', repeal s u = .ok s' →
      get_grant s' u = .error .grantNotFound ∧
      (∀ u', u' ≠ u → get_grant s' u' = get_grant s u') ∧
      (∀ eff act, (∀ a, act = some a → a ∈ s.declaredActions) →
        ∃ sel pages', selectGrants s eff act = .ok sel ∧
          follow_pages s' eff act gps = .ok pages' ∧
          pages'.flatten = bucket_repeal u sel)) := by
  cases hl : alookup s.lut u with
  | none =>
    have hre : repeal s u = .error .grantNotFound := by
      simp only [repeal, hl]
    refine ⟨⟨fun _ => rfl, fun _ => hre⟩, ?_⟩
    intro s' h
    rw [hre] at h
    exact Except.noConfusion h
  | some g =>
    obtain ⟨s'0, hrep, hRF⟩ := repeal_ok hInv hl
    refine ⟨⟨?_, ?_⟩, ?_⟩
    · intro h
      rw [hrep] at h
      exact Except.noConfusion h
    · intro h
      exact Option.noConfusion h
    · intro s' h
      rw [hrep] at h
      have hs : s'0 = s' := Except.ok.inj h
      subst hs
      refine ⟨?_, ?_, ?_⟩
      · simp only [get_grant, hRF.lutEq, alookup_adel_self hInv.nodupKeys]
      · intro u' hne
        simp only [get_grant, hRF.lutEq, alookup_adel_ne s.lut u u' hne]
      · intro eff act hact
        obtain ⟨sel, hsel, _⟩ := selectGrants_ok_of_inv hInv eff act hact
        have hsel' := selectGrants_of_repealed hRF eff act hact sel hsel
        refine ⟨sel,
          follow_pages_aux (bucket_repeal u sel) gps
            ((bucket_repeal u sel).length + 1) none, hsel, ?_, ?_⟩
        · simp only [follow_pages, hsel']
        · exact follow_pages_aux_flatten_top _ gps hgps

/-! ### Enact lemmas and claim theorem -/

theorem appendAtKey_error {m : List (String × List Grant)} {k : String}
    {g : Grant} {e : PyErr} (h : appendAtKey m k g = .error e) :
    e = .keyError := by
  rw [appendAtKey] at h
  cases hl : alookup m k with
  | none =>
    rw [hl] at h
    exact (Except.error.inj h).symm
  | some xs =>
    rw [hl] at h
    exact Except.noConfusion h

theorem enactActions_lut (g : Grant) :
    ∀ (l : List String) (t t' : St), enactActions g t l = .ok t' →
      t'.lut = t.lut := by
  intro l
  induction l with
  | nil =>
    intro t t' h
    rw [← Except.ok.inj h]
  | cons a rest ih =>
    intro t t' h
    simp only [enactActions] at h
    cases hk1 : appendAtKey t.actionBuckets a g with
    | error e =>
      rw [hk1] at h
      exact Except.noConfusion h
    | ok ab =>
      rw [hk1] at h
      cases hk2 : appendAtKey (bothMap t g.effect) a g with
      | error e =>
        rw [hk2] at h
        exact Except.noConfusion h
      | ok bb =>
        rw [hk2] at h
        rw [ih _ _ h]
        exact (setBothMap_fields _ _ _).1

theorem enactActions_ne_gnf (g : Grant) :
    ∀ (l : List String) (t : St),
      enactActions g t l ≠ .error .grantNotFound := by
  intro l
  induction l with
  | nil => intro t h; exact Except.noConfusion h
  | cons a rest ih =>
    intro t h
    simp only [enactActions] at h
    cases hk1 : appendAtKey t.actionBuckets a g with
    | error e =>
      rw [hk1] at h
      have he := appendAtKey_error hk1
      rw [he] at h
      exact PyErr.noConfusion (Except.error.inj h)
    | ok ab =>
      rw [hk1] at h
      cases hk2 : appendAtKey (bothMap t g.effect) a g with
      | error e =>
        rw [hk2] at h
        have he := appendAtKey_error hk2
        rw [he] at h
        exact PyErr.noConfusion (Except.error.inj h)
      | ok bb =>
        rw [hk2] at h
        exact ih _ h

/-- C10 (Enact): `enact` never raises `GrantNotFoundError`; on success
the returned grant equals the input on every field except `grant_uuid`,
which is overwritten with the freshly generated uuid, and every
previously stored grant is still returned unchanged by `get_grant`. -/
theorem enact_spec (s : St) (new_grant : Grant) (fresh : String)
    (hf : alookup s.lut fresh = none) :
    enact s new_grant fresh ≠ .error .grantNotFound ∧
    (∀ s' ret, enact s new_grant fresh = .ok (s', ret) →
      ret = { new_grant with grant_uuid := fresh } ∧
      (∀ u gl, alookup s.lut u = some gl → get_grant s' u = .ok gl)) := by
  have hlut1 : ∀ u gl, alookup s.lut u = some gl →
      alookup (dinsert s.lut fresh { new_grant with grant_uuid := fresh }) u = some gl := by
    intro u gl hu
    have hne : u ≠ fresh := by
      intro he
      rw [he, hf] at hu
      exact Option.noConfusion hu
    rw [alookup_dinsert_ne _ _ _ _ hne]
    exact hu
  by_cases hA : ({ new_grant with grant_uuid := fresh } : Grant).actions = []
  · constructor
    · intro h
      simp only [enact] at h
      rw [if_pos hA] at h
      exact Except.noConfusion h
    · intro s' ret h
      simp only [enact] at h
      rw [if_pos hA] at h
      have hp := Except.ok.inj h
      rw [Prod.mk.injEq] at hp
      have hs' : s'.lut = dinsert s.lut fresh { new_grant with grant_uuid := fresh } := by
        rw [← hp.1]
        exact ((setBothNone_fields _ _ _).1).trans ((setEffectList_fields _ _ _).1)
      refine ⟨hp.2.symm, ?_⟩
      intro u gl hu
      simp only [get_grant, hs', hlut1 u gl hu]
  · constructor
    · intro h
      simp only [enact] at h
      rw [if_neg hA] at h
      cases hk : enactActions { new_grant with grant_uuid := fresh }
          (setEffectList { s with lut := dinsert s.lut fresh { new_grant with grant_uuid := fresh } } ({ new_grant with grant_uuid := fresh } : Grant).effect (effectList { s with lut := dinsert s.lut fresh { new_grant with grant_uuid := fresh } } ({ new_grant with grant_uuid := fresh } : Grant).effect ++ [{ new_grant with grant_uuid := fresh }]))
          ({ new_grant with grant_uuid := fresh } : Grant).actions with
      | error e =>
        rw [hk] at h
        have : e = PyErr.grantNotFound := Except.error.inj h
        rw [this] at hk
        exact enactActions_ne_gnf _ _ _ hk
      | ok s3 =>
        rw [hk] at h
        exact Except.noConfusion h
    · intro s' ret h
      simp only [enact] at h
      rw [if_neg hA] at h
      cases hk : enactActions { new_grant with grant_uuid := fresh }
          (setEffectList { s with lut := dinsert s.lut fresh { new_grant with grant_uuid := fresh } } ({ new_grant with grant_uuid := fresh } : Grant).effect (effectList { s with lut := dinsert s.lut fresh { new_grant with grant_uuid := fresh } } ({ new_grant with grant_uuid := fresh } : Grant).effect ++ [{ new_grant with grant_uuid := fresh }]))
          ({ new_grant with grant_uuid := fresh } : Grant).actions with
      | error e =>
        rw [hk] at h
        exact Except.noConfusion h
      | ok s3 =>
        rw [hk] at h
        have hp := Except.ok.inj h
        rw [Prod.mk.injEq] at hp
        have hs3 := enactActions_lut _ _ _ _ hk
        have hs' : s'.lut = dinsert s.lut fresh { new_grant with grant_uuid := fresh } := by
          rw [← hp.1, hs3]
          exact (setEffectList_fields _ _ _).1
        refine ⟨hp.2.symm, ?_⟩
        intro u gl hu
        simp only [get_grant, hs', hlut1 u gl hu]

/-! ### Latch claim theorem -/

/-- C9 (Latch idempotence): `create_latch` returns an unset latch;
`set_latch` on an already-set latch leaves the stored state unchanged
and `get_latch` afterwards returns the latch with `set = true`;
`set_latch`, `get_latch` and `delete_latch` raise `LatchNotFoundError`
exactly when the uuid is absent. -/
theorem latch_spec (m : LatchSt) (u fresh : String) (now : Nat) :
    ((create_latch m fresh now).2.set = false) ∧
    (∀ l, alookup m u = some l → l.set = true →
      set_latch m u = .ok (m, l) ∧ get_latch m u = .ok l) ∧
    (set_latch m u = .error .latchNotFound ↔ alookup m u = none) ∧
    (get_latch m u = .error .latchNotFound ↔ alookup m u = none) ∧
    (delete_latch m u = .error .latchNotFound ↔ alookup m u = none) := by
  refine ⟨rfl, ?_, ?_, ?_, ?_⟩
  · intro l hl hset
    have hls : ({ l with set := true } : Latch) = l := by
      cases l
      simp_all
    constructor
    · simp only [set_latch, hl, hls, aset_self hl]
    · simp only [get_latch, hl]
  · cases hl : alookup m u with
    | none => simp [set_latch, hl]
    | some l => simp [set_latch, hl]
  · cases hl : alookup m u with
    | none => simp [get_latch, hl]
    | some l => simp [get_latch, hl]
  · cases hl : alookup m u with
    | none => simp [delete_latch, hl]
    | some l => simp [delete_latch, hl]

/-! ### Locality claim theorem -/

/-- C5 (Locality gating, code bug): the gate condition of `start` is
exactly `storage.locality ∈ locality_compatibility[compute.locality]`,
but on an incompatible pairing the raise statement references the
nonexistent `exceptions.LocalityIncompatibility`, so `AttributeError` is
raised instead of `LocalityIncompatibilityError`. -/
theorem locality_gate_bug :
    (∀ c st, start_locality_check c st = .ok () ↔
      st ∈ locality_compatibility c) ∧
    start_locality_check ModuleLocality.SYSTEM ModuleLocality.PROCESS =
      .error .attributeError ∧
    PyErr.attributeError ≠ PyErr.localityIncompatibility := by
  refine ⟨?_, by decide, by decide⟩
  intro c st
  cases c <;> cases st <;> decide

/-! ### Object-identity model for deep-copy isolation

The value-level `St` cannot express Python aliasing; the model below
decorates the same `enact` / `get_grant` / `get_grants_page` code paths
(`in_process_storage.py` lines 102-128, 159-182, 185-238) with an
explicit object heap: each grant dict is a heap cell, `copy.deepcopy`
allocates a fresh cell holding the same value, the lookup table stores
the address of the stored object, and a caller mutation writes through a
returned address.  The denormalized buckets hold aliases of the same
stored addresses and are elided; page slicing is value-level and
orthogonal to aliasing, so the page read is modelled over the whole
table. -/

structure HSt where
  heap : List Grant
  hlut : List (String × Nat)
deriving DecidableEq, Repr

def HInv (t : HSt) : Prop := ∀ p ∈ t.hlut, p.2 < t.heap.length

/-- Embeds `enact` with addresses: `grant = copy.deepcopy(new_grant)` allocates
the stored cell (uuid overwritten), the indexes point at it, and
`return copy.deepcopy(grant)` allocates and returns a second, distinct
cell. -/
def enactH (t : HSt) (new_grant : Grant) (fresh : String) : HSt × Nat :=
  ({ heap := (t.heap ++ [{ new_grant with grant_uuid := fresh }]) ++
      [{ new_grant with grant_uuid := fresh }],
     hlut := dinsert t.hlut fresh t.heap.length },
   (t.heap ++ [{ new_grant with grant_uuid := fresh }]).length)

/-- Embeds `get_grant` with addresses: the returned dict is a fresh deep copy
of the stored object. -/
def get_grantH (t : HSt) (u : String) : Except PyErr (HSt × Nat) :=
  match alookup t.hlut u with
  | none => .error .grantNotFound
  | some a =>
    match t.heap[a]? with
    | none => .error .keyError
    | some v => .ok ({ t with heap := t.heap ++ [v] }, t.heap.length)

/-- Embeds `get_grants_page` with addresses: the returned page is a list of
fresh deep copies, one per stored grant. -/
def get_grants_pageH (t : HSt) : HSt × List Nat :=
  ({ t with heap := t.heap ++ t.hlut.filterMap (fun p => t.heap[p.2]?) },
   (List.range (t.hlut.filterMap (fun p => t.heap[p.2]?)).length).map
     (fun i => t.heap.length + i))

/-- Caller-side mutation of the object at an address
(`returned_dict[field] = ...`). -/
def mutateH (t : HSt) (a : Nat) (v : Grant) : HSt := { t with heap := t.heap.set a v }

/-- The stored value a subsequent `get_grant(u)` deep-copies and
returns. -/
def grant_valueH (t : HSt) (u : String) : Option Grant :=
  (alookup t.hlut u).bind (fun a => t.heap[a]?)

/-- The stored values a subsequent `get_grants_page` deep-copies and
returns, in table order. -/
def page_valuesH (t : HSt) : List (Option Grant) :=
  t.hlut.map (fun p => t.heap[p.2]?)

theorem mutate_fresh_reads (t : HSt) (a : Nat)
    (hfresh : ∀ p ∈ t.hlut, p.2 ≠ a) (v : Grant) :
    (∀ u, grant_valueH (mutateH t a v) u = grant_valueH t u) ∧
    page_valuesH (mutateH t a v) = page_valuesH t := by
  constructor
  · intro u
    simp only [grant_valueH, mutateH]
    cases hl : alookup t.hlut u with
    | none => rfl
    | some ad =>
      have hne : ad ≠ a := hfresh (u, ad) (alookup_mem hl)
      exact List.getElem?_set_ne (fun he => hne he.symm)
  · simp only [page_valuesH, mutateH]
    apply List.map_congr_left
    intro p hp
    exact List.getElem?_set_ne (fun he => (hfresh p hp) he.symm)

/-- C7 (Deep-copy isolation): mutating the object returned by `enact`,
`get_grant`, or `get_grants_page` changes no stored value — the values a
subsequent `get_grant` (for any uuid) or `get_grants_page` would return
are unchanged. -/
theorem deep_copy_isolation (t : HSt) (hInv : HInv t) (new_grant : Grant)
    (fresh : String) (u : String) :
    (∀ v u', grant_valueH (mutateH (enactH t new_grant fresh).1
        (enactH t new_grant fresh).2 v) u' =
        grant_valueH (enactH t new_grant fresh).1 u' ∧
      page_valuesH (mutateH (enactH t new_grant fresh).1
        (enactH t new_grant fresh).2 v) =
        page_valuesH (enactH t new_grant fresh).1) ∧
    (∀ t2 r2, get_grantH t u = .ok (t2, r2) →
      ∀ v u', grant_valueH (mutateH t2 r2 v) u' = grant_valueH t2 u' ∧
        page_valuesH (mutateH t2 r2 v) = page_valuesH t2) ∧
    (∀ r ∈ (get_grants_pageH t).2, ∀ v u',
      grant_valueH (mutateH (get_grants_pageH t).1 r v) u' =
        grant_valueH (get_grants_pageH t).1 u' ∧
      page_valuesH (mutateH (get_grants_pageH t).1 r v) =
        page_valuesH (get_grants_pageH t).1) := by
  refine ⟨?_, ?_, ?_⟩
  · intro v u'
    have hfresh : ∀ p ∈ (enactH t new_grant fresh).1.hlut,
        p.2 ≠ (enactH t new_grant fresh).2 := by
      intro p hp
      have hret : (enactH t new_grant fresh).2 = t.heap.length + 1 := by
        show (t.heap ++ [_]).length = _
        simp
      rw [hret]
      rcases mem_dinsert hp with hmem | hpeq
      · have := hInv p hmem
        omega
      · rw [hpeq]
        omega
    have h := mutate_fresh_reads (enactH t new_grant fresh).1
      (enactH t new_grant fresh).2 hfresh v
    exact ⟨h.1 u', h.2⟩
  · intro t2 r2 h v u'
    cases hl : alookup t.hlut u with
    | none =>
      simp only [get_grantH, hl] at h
      exact Except.noConfusion h
    | some a =>
      simp only [get_grantH, hl] at h
      cases hv : t.heap[a]? with
      | none =>
        simp only [hv] at h
        exact Except.noConfusion h
      | some val =>
        simp only [hv] at h
        have hp := Except.ok.inj h
        rw [Prod.mk.injEq] at hp
        have hfresh : ∀ p ∈ t2.hlut, p.2 ≠ r2 := by
          intro p hpm
          have h2 : t2.hlut = t.hlut := by rw [← hp.1]
          have h3 : r2 = t.heap.length := hp.2.symm
          rw [h2] at hpm
          have := hInv p hpm
          omega
        have h := mutate_fresh_reads t2 r2 hfresh v
        exact ⟨h.1 u', h.2⟩
  · intro r hr v u'
    have hfresh : ∀ p ∈ (get_grants_pageH t).1.hlut, p.2 ≠ r := by
      intro p hpm
      have h2 : (get_grants_pageH t).1.hlut = t.hlut := rfl
      rw [h2] at hpm
      have hlt := hInv p hpm
      obtain ⟨i, _, hi⟩ := List.mem_map.mp hr
      omega
    have h := mutate_fresh_reads (get_grants_pageH t).1 r hfresh v
    exact ⟨h.1 u', h.2⟩

/-! ### Concrete example grants, request and states -/

def exG1 : Grant :=
  { grant_uuid := "U1", name := "g1", description := "d1",
    effect := .allow, actions := ["Balloon:Inflate"], query := "Q1",
    query_validation := .validateTag, equality := true, data := 0,
    context_schema := 0, context_validation := .noneTag }

def exG2 : Grant :=
  { grant_uuid := "U2", name := "g2", description := "d2",
    effect := .allow, actions := ["Balloon:Inflate"], query := "Q2",
    query_validation := .validateTag, equality := true, data := 0,
    context_schema := 0, context_validation := .noneTag }

def exGD : Grant :=
  { grant_uuid := "U3", name := "g3", description := "d3",
    effect := .deny, actions := ["Balloon:Inflate"], query := "Q1",
    query_validation := .validateTag, equality := true, data := 0,
    context_schema := 0, context_validation := .noneTag }

/-- A concrete JMESPath evaluator: query `"Q1"` evaluates to `true`,
anything else to `false`. -/
def exSearch : SearchFn := fun q _ _ =>
  if q = "Q1" then some (.b true) else some (.b false)

def exCtxOk : CtxFn := fun _ _ => true

def exReq : Req := { action := "Balloon:Inflate", context := 0, payload := 0 }

/-- Two allow grants under `Balloon:Inflate`; `exG1` matches `exReq`,
`exG2` does not. -/
def exSt2 : St :=
  { declaredActions := ["Balloon:Inflate", "Balloon:Read"],
    lut := [("U1", exG1), ("U2", exG2)],
    allowList := [exG1, exG2], denyList := [],
    actionBuckets := [("Balloon:Inflate", [exG1, exG2]), ("Balloon:Read", [])],
    actionNone := [],
    bothAllow := [("Balloon:Inflate", [exG1, exG2]), ("Balloon:Read", [])],
    bothAllowNone := [],
    bothDeny := [("Balloon:Inflate", []), ("Balloon:Read", [])],
    bothDenyNone := [] }

/-- One deny grant matching `exReq`. -/
def exSt3 : St :=
  { declaredActions := ["Balloon:Inflate", "Balloon:Read"],
    lut := [("U3", exGD)],
    allowList := [], denyList := [exGD],
    actionBuckets := [("Balloon:Inflate", [exGD]), ("Balloon:Read", [])],
    actionNone := [],
    bothAllow := [("Balloon:Inflate", []), ("Balloon:Read", [])],
    bothAllowNone := [],
    bothDeny := [("Balloon:Inflate", [exGD]), ("Balloon:Read", [])],
    bothDenyNone := [] }

/-- The started empty store (after `__init__` + `start` with the two
`Balloon` actions declared). -/
def exSt0 : St :=
  { declaredActions := ["Balloon:Inflate", "Balloon:Read"],
    lut := [],
    allowList := [], denyList := [],
    actionBuckets := [("Balloon:Inflate", []), ("Balloon:Read", [])],
    actionNone := [],
    bothAllow := [("Balloon:Inflate", []), ("Balloon:Read", [])],
    bothAllowNone := [],
    bothDeny := [("Balloon:Inflate", []), ("Balloon:Read", [])],
    bothDenyNone := [] }

/-- The state after enacting `exG1` into the started empty store. -/
def exSt2a : St :=
  { declaredActions := ["Balloon:Inflate", "Balloon:Read"],
    lut := [("U1", exG1)],
    allowList := [exG1], denyList := [],
    actionBuckets := [("Balloon:Inflate", [exG1]), ("Balloon:Read", [])],
    actionNone := [],
    bothAllow := [("Balloon:Inflate", [exG1]), ("Balloon:Read", [])],
    bothAllowNone := [],
    bothDeny := [("Balloon:Inflate", []), ("Balloon:Read", [])],
    bothDenyNone := [] }

/-- The example stores are reachable through the public API: two enacts
build `exSt2`, one enact builds `exSt3`. -/
theorem example_states_reachable :
    enact exSt0 exG1 "U1" = .ok (exSt2a, exG1) ∧
    enact exSt2a exG2 "U2" = .ok (exSt2, exG2) ∧
    enact exSt0 exGD "U3" = .ok (exSt3, exGD) := by
  decide

instance (search : SearchFn) (ctxOk : CtxFn) (req : Req) (g : Grant) :
    Decidable (CleanGrant search ctxOk req g) := by
  unfold CleanGrant
  infer_instance

instance (t : HSt) : Decidable (HInv t) := by
  unfold HInv
  infer_instance

/-! ### Claim theorems on the concrete states -/

/-- C2 (Allow-witness, code bug): `exG1` is an allow grant matching
`exReq` and is selected for the allow scan — yet sequential `authorize`
with page size 1 returns `authorized = false` with no grant, because the
allow loop's early-return test is `completed is False AND grant is not
None` (line 160) instead of `or`, so a match on a non-final page is
discarded and the last page's response is returned. -/
theorem allow_witness_bug :
    match_grant exSearch exCtxOk exReq exG1 = .matched ∧
    exG1.effect = Effect.allow ∧
    selectGrants exSt2 (some Effect.allow) (some exReq.action) = .ok [exG1, exG2] ∧
    authorize exSt2 exSearch exCtxOk exReq 1 false 1 =
      .ok { authorized := false, completed := true, grant := none,
            errors := emptyErrs } := by
  decide

/-- C4 counterexample: on the same store and request, parallel paging
(one slab of two pages) reports the matching allow grant, sequential
paging (two slabs) loses it — the two modes return different
`authorized` values. -/
theorem parallel_equivalence_cex :
    authorize exSt2 exSearch exCtxOk exReq 1 true 2 ≠
      authorize exSt2 exSearch exCtxOk exReq 1 false 2 := by
  decide

/-- C6 (Invalid page reference, code bug): a `page_ref` that no storage
issued (here `"la la"`, not even parseable as an int) does not raise
`PageReferenceError` — `int()`'s `ValueError` is caught (lines 222-225),
the start index silently becomes 0, and the first page of grants is
returned. -/
theorem invalid_page_ref_no_error :
    pyIntParse "la la" = none ∧
    get_grants_page exSt3 none none (some "la la") 5 =
      .ok { grants := [exGD], next_page_ref := none } := by
  decide

/-! ### Witnesses -/

/-- Witness for C1 at a concrete store with one matching deny grant. -/
theorem deny_overrides_witness :
    ∃ dg resp,
      selectGrants exSt3 (some Effect.deny) (some exReq.action) = .ok dg ∧
      (scan_pages (core_authorize exSearch exCtxOk exReq) denyCond
        (page_gen dg 1 false 1)).1 = some resp ∧
      resp.authorized = false ∧
      authorize exSt3 exSearch exCtxOk exReq 1 false 1 = .ok resp :=
  deny_overrides exSt3 exSearch exCtxOk exReq 1 false 1
    ⟨by decide, by decide, by decide, by decide, by decide, by decide,
     by decide, by decide, by decide, by decide, by decide⟩
    (by decide) (by decide) (by decide)
    ⟨exGD, by decide, by decide, by decide, by decide⟩

/-- Witness for C3 at a concrete store, allow/`Balloon:Inflate` filter,
page size 1. -/
theorem pagination_coverage_witness :
    ∃ sel pages,
      selectGrants exSt2 (some Effect.allow) (some "Balloon:Inflate") = .ok sel ∧
      follow_pages exSt2 (some Effect.allow) (some "Balloon:Inflate") 1 = .ok pages ∧
      pages.flatten = sel ∧
      sel.Perm (exSt2.lutValues.filter
        (grant_filter (some Effect.allow) (some "Balloon:Inflate"))) ∧
      (sel.map Grant.grant_uuid).Nodup :=
  pagination_coverage exSt2 (some Effect.allow) (some "Balloon:Inflate") 1
    ⟨by decide, by decide, by decide, by decide, by decide, by decide,
     by decide, by decide, by decide, by decide, by decide⟩
    (fun a ha => by cases ha; decide) (by decide)

/-- Witness for the amended C4 at a concrete store whose deny grant
matches: both paging modes return the same response. -/
theorem parallel_equivalence_witness :
    authorize exSt3 exSearch exCtxOk exReq 1 true 1 =
      authorize exSt3 exSearch exCtxOk exReq 1 false 1 :=
  parallel_equivalence exSt3 exSearch exCtxOk exReq 1 1
    ⟨by decide, by decide, by decide, by decide, by decide, by decide,
     by decide, by decide, by decide, by decide, by decide⟩
    (by decide) (by decide) (by decide) (by decide) (by decide)

def exHSt : HSt := { heap := [exG1], hlut := [("U1", 0)] }

/-- Witness for C7 at a concrete heap: mutating the dict returned by
`enact` does not change what `get_grant("U1")` returns. -/
theorem deep_copy_isolation_witness :
    grant_valueH (mutateH (enactH exHSt exG2 "U9").1
        (enactH exHSt exG2 "U9").2 exGD) "U1" =
      grant_valueH (enactH exHSt exG2 "U9").1 "U1" :=
  ((deep_copy_isolation exHSt (by decide) exG2 "U9" "U1").1 exGD "U1").1

/-- The state the code computes for `repeal exSt2 "U1"`. -/
def exSt2r : St :=
  { declaredActions := ["Balloon:Inflate", "Balloon:Read"],
    lut := [("U2", exG2)],
    allowList := [exG2], denyList := [],
    actionBuckets := [("Balloon:Inflate", [exG2]), ("Balloon:Read", [])],
    actionNone := [],
    bothAllow := [("Balloon:Inflate", [exG2]), ("Balloon:Read", [])],
    bothAllowNone := [],
    bothDeny := [("Balloon:Inflate", []), ("Balloon:Read", [])],
    bothDenyNone := [] }

/-- Witness for C8 at a concrete store: repealing `"U1"` succeeds, the
grant disappears from `get_grant` and from the filtered scan, and
`"U2"` is untouched. -/
theorem repeal_spec_witness :
    (repeal exSt2 "U1" = .error .grantNotFound ↔ alookup exSt2.lut "U1" = none) ∧
    get_grant exSt2r "U1" = .error .grantNotFound ∧
    get_grant exSt2r "U2" = get_grant exSt2 "U2" ∧
    (∃ sel pages',
      selectGrants exSt2 (some Effect.allow) (some "Balloon:Inflate") = .ok sel ∧
      follow_pages exSt2r (some Effect.allow) (some "Balloon:Inflate") 1 = .ok pages' ∧
      pages'.flatten = bucket_repeal "U1" sel) := by
  have h := repeal_spec exSt2 "U1" 1
    ⟨by decide, by decide, by decide, by decide, by decide, by decide,
     by decide, by decide, by decide, by decide, by decide⟩
    (by decide)
  have hrep : repeal exSt2 "U1" = .ok exSt2r := by decide
  have h2 := h.2 exSt2r hrep
  exact ⟨h.1, h2.1, h2.2.1 "U2" (by decide),
    h2.2.2 (some Effect.allow) (some "Balloon:Inflate")
      (fun a ha => by cases ha; decide)⟩

def exL1 : Latch := { storage_latch_uuid := "L1", set := true, created_at := 3 }

def exLatchSt : LatchSt := [("L1", exL1)]

/-- Witness for C9 at a concrete latch store holding one already-set
latch. -/
theorem latch_spec_witness :
    (create_latch exLatchSt "F" 9).2.set = false ∧
    set_latch exLatchSt "L1" = .ok (exLatchSt, exL1) ∧
    get_latch exLatchSt "L1" = .ok exL1 ∧
    (set_latch exLatchSt "L0" = .error .latchNotFound ↔
      alookup exLatchSt "L0" = none) := by
  have h := latch_spec exLatchSt "L1" "F" 9
  have h0 := latch_spec exLatchSt "L0" "F" 9
  exact ⟨h.1, (h.2.1 exL1 (by decide) (by decide)).1,
    (h.2.1 exL1 (by decide) (by decide)).2, h0.2.2.1⟩

def exG9 : Grant := { exG1 with grant_uuid := "U9" }

/-- The state the code computes for `enact exSt3 exG1 "U9"`. -/
def exSt3e : St :=
  { declaredActions := ["Balloon:Inflate", "Balloon:Read"],
    lut := [("U3", exGD), ("U9", exG9)],
    allowList := [exG9], denyList := [exGD],
    actionBuckets := [("Balloon:Inflate", [exGD, exG9]), ("Balloon:Read", [])],
    actionNone := [],
    bothAllow := [("Balloon:Inflate", [exG9]), ("Balloon:Read", [])],
    bothAllowNone := [],
    bothDeny := [("Balloon:Inflate", [exGD]), ("Balloon:Read", [])],
    bothDenyNone := [] }

/-- Witness for C10 at a concrete store: the enacted grant keeps every
input field except the overwritten uuid, and the previously stored deny
grant is unchanged. -/
theorem enact_spec_witness :
    enact exSt3 exG1 "U9" ≠ .error .grantNotFound ∧
    exG9 = { exG1 with grant_uuid := "U9" } ∧
    get_grant exSt3e "U3" = .ok exGD := by
  have h := enact_spec exSt3 exG1 "U9" (by decide)
  have hok : enact exSt3 exG1 "U9" = .ok (exSt3e, exG9) := by decide
  have h2 := h.2 exSt3e exG9 hok
  exact ⟨h.1, h2.1, h2.2 "U3" exGD (by decide)⟩

end Authzee
